import Mathlib

/-!
# Verification of the journal-monitor ingestion pipeline

A shallow embedding, in Lean 4, of the article ingestion-and-classification
pipeline of the `journal-monitor` repository: the priority classifier
(`src/summarizer.py`), the deduplicating store (`src/database.py`), the OPML
feed registry (`src/rss_parser.py`), the abstract-enrichment chain
(`src/openalex.py`, `src/semantic_scholar.py`) and the translation gate
(`src/openalex.py`), together with theorems settling the specified
properties of those components.

Conventions used throughout the embedding:

* Python `str` is `String`; a Python value that may be `None` is `Option _`.
* Python's substring operator `needle in hay` is `strIn`, defined below on
  character lists.
* `str.lower()` is modeled by `str_lower` (ASCII case folding on the
  character list; every configured keyword is either ASCII or Korean, and
  Korean has no case).
* SQLite rows are Lean structures, a table is a `List` of rows in insertion
  order, and each SQL statement of the source is translated into an explicit
  filter / map over that list.
* Network calls (the language model, OpenAlex, Semantic Scholar) are modeled
  by explicit oracle functions passed to the code that performs the calls;
  a call that raises is an oracle returning `Except.error` / `Option.none`.
-/

/-- Python's substring test `needle in hay`, on the character lists of the
two strings.  `strIn n h` is `true` iff `n` occurs contiguously in `h`
(the empty needle occurs in everything). -/
def strIn (needle : List Char) : List Char → Bool
  | [] => needle.isEmpty
  | c :: t => needle.isPrefixOf (c :: t) || strIn needle t

/-- Python `str.lower()`: character-wise lowercasing. -/
def str_lower (s : String) : String := ⟨s.data.map Char.toLower⟩

/-- Python `str.split(" ")`: split a character list at every space,
keeping empty segments (so a trailing space yields a final empty word). -/
def split_space : List Char → List (List Char)
  | [] => [[]]
  | c :: t =>
    match split_space t with
    | [] => [[]]
    | w :: ws => if c = ' ' then [] :: w :: ws else (c :: w) :: ws

/-- Python `str.strip()`: drop whitespace from both ends. -/
def py_strip (s : String) : String :=
  ⟨(s.data.dropWhile Char.isWhitespace).reverse.dropWhile Char.isWhitespace |>.reverse⟩

/-- The `high` tier of `Summarizer.priority_keywords` (src/summarizer.py). -/
def priority_keywords_high : List String :=
  ["governmentality", "통치성", "assemblage", "어셈블리지",
   "new materialism", "신유물론", "foucault", "푸코",
   "deleuze", "들뢰즈", "guattari", "가타리",
   "lefebvre", "르페브르", "urban politics", "도시정치",
   "housing financialization", "주거 금융화", "gentrification", "젠트리피케이션",
   "displacement", "축출", "dispossession", "탈취",
   "biopolitics", "생명정치", "necropolitics", "죽음정치",
   "territory", "영토", "territoriality", "영토성"]

/-- The `medium` tier of `Summarizer.priority_keywords` (src/summarizer.py). -/
def priority_keywords_medium : List String :=
  ["urban planning", "도시계획", "political geography", "정치지리",
   "spatial", "공간", "mobility", "이동성", "infrastructure", "인프라",
   "housing", "주거", "rent", "임대", "property", "재산",
   "neoliberal", "신자유주의", "accumulation", "축적",
   "state", "국가", "governance", "거버넌스", "planning theory", "계획이론"]

/-- `Summarizer._check_priority` (src/summarizer.py): lowercase
`f"{title} {abstract}"`, collect every high-tier keyword occurring as a
substring; if any matched return `('high', matches)`; otherwise collect the
medium-tier matches the same way; otherwise `('normal', [])`. -/
def check_priority (title abstract : String) : String × List String :=
  let text := str_lower (title ++ " " ++ abstract)
  let matchedHigh :=
    priority_keywords_high.filter (fun kw => strIn (str_lower kw).data text.data)
  if matchedHigh.isEmpty then
    let matchedMedium :=
      priority_keywords_medium.filter (fun kw => strIn (str_lower kw).data text.data)
    if matchedMedium.isEmpty then ("normal", []) else ("medium", matchedMedium)
  else ("high", matchedHigh)

/-! ## The deduplicating store (src/database.py) -/

/-- Model of `hashlib.md5(content.encode()).hexdigest()`
(`Database.generate_hash`, src/database.py).  The digest is modeled as the
identity encoding of the hashed content string: every theorem in this
development depends only on the fact that equal content strings receive
equal digests, never on any property of MD5 itself (in particular, no
theorem relies on distinct contents receiving distinct digests). -/
def md5_hexdigest (content : String) : String := content

/-- `Database.generate_hash` (src/database.py):
`hashlib.md5(f"{title}|{url}".encode()).hexdigest()`. -/
def generate_hash (title url : String) : String :=
  md5_hexdigest (title ++ "|" ++ url)

/-- One row of the `articles` table (src/database.py, `_init_db`).  Columns
that the modeled pipeline never reads or writes (`fetched_at`, `notes`) are
omitted; `fetched_at DESC` ordering is discussed at
`get_articles_without_abstract`. -/
structure ArticleRow where
  id : Nat
  journal_id : Option Nat
  title : Option String
  title_ko : Option String
  authors : Option String
  abstract : Option String
  abstract_ko : Option String
  summary_ko : Option String
  url : Option String
  doi : Option String
  published_date : Option String
  hash : String
  priority : String
  is_read : Bool := false
  is_starred : Bool := false
  keywords_matched : Option String
  deriving DecidableEq

/-- One row of the `journals` table (src/database.py). -/
structure JournalRow where
  id : Nat
  name : String
  feed_url : String
  category : Option String
  deriving DecidableEq

/-- The article dictionary passed to `Database.insert_article`: a Python
dict in which any key may be missing (`article.get(...)`), so every field
is optional. -/
structure ArticleInput where
  journal_id : Option Nat := none
  title : Option String := none
  title_ko : Option String := none
  authors : Option String := none
  abstract : Option String := none
  abstract_ko : Option String := none
  summary_ko : Option String := none
  url : Option String := none
  doi : Option String := none
  published_date : Option String := none
  priority : Option String := none
  keywords_matched : Option (List String) := none
  journal_name : Option String := none
  category : Option String := none
  deriving DecidableEq

/-- Escape of one character inside a JSON string literal, as produced by
`json.dumps(..., ensure_ascii=False)`: only the quote, the backslash, and
control characters are escaped; everything else (including Korean) is kept
verbatim. -/
def json_escape_char (c : Char) : String :=
  if c = '"' then "\\\""
  else if c = '\\' then "\\\\"
  else if c = '\n' then "\\n"
  else if c = '\t' then "\\t"
  else if c = '\r' then "\\r"
  else if c.toNat < 32 then "\\u" ++ String.mk (Nat.toDigits 16 c.toNat)
  else String.singleton c

/-- `json.dumps(keywords, ensure_ascii=False)` for a list of strings
(src/database.py, `insert_article`): a JSON array literal with the default
`", "` separator. -/
def json_dumps_strings (l : List String) : String :=
  "[" ++ String.intercalate ", "
    (l.map (fun s => "\"" ++ String.join (s.data.map json_escape_char) ++ "\"")) ++ "]"

/-- `Database.article_exists` (src/database.py):
`SELECT 1 FROM articles WHERE hash = ?` is non-empty. -/
def article_exists (articles : List ArticleRow) (h : String) : Bool :=
  articles.any (fun r => r.hash == h)

/-- SQLite `AUTOINCREMENT` / `cursor.lastrowid` on a table that only ever
grows: one more than the largest id in use. -/
def next_article_id (articles : List ArticleRow) : Nat :=
  (articles.map (·.id)).foldl max 0 + 1

/-- `Database.insert_article` (src/database.py): hash `(title, url)`;
if a row with that hash exists return `None` and leave the table alone;
otherwise serialize `keywords_matched` (`json.dumps(keywords) if keywords
else None` — a missing key defaults to `[]`, and both `[]` and a missing
key are falsy, hence stored as NULL) and append the new row, returning its
id. -/
def insert_article (articles : List ArticleRow) (a : ArticleInput) :
    Option Nat × List ArticleRow :=
  let h := generate_hash (a.title.getD "") (a.url.getD "")
  if article_exists articles h then (none, articles)
  else
    let keywords := a.keywords_matched.getD []
    let keywords_json :=
      if keywords.isEmpty then none else some (json_dumps_strings keywords)
    let row : ArticleRow :=
      { id := next_article_id articles
        journal_id := a.journal_id
        title := a.title
        title_ko := a.title_ko
        authors := a.authors
        abstract := a.abstract
        abstract_ko := a.abstract_ko
        summary_ko := a.summary_ko
        url := a.url
        doi := a.doi
        published_date := a.published_date
        hash := h
        priority := a.priority.getD "normal"
        keywords_matched := keywords_json }
    (some row.id, articles ++ [row])

/-! ## OpenAlex inverted-index reconstruction (src/openalex.py) -/

/-- The `position_word` dict built by `OpenAlexClient._reconstruct_abstract`
(src/openalex.py): one `(pos, word)` pair per recorded position, in the
iteration order `for word, positions in inverted_index.items(): for pos in
positions`.  The inverted index itself is modeled as an association list in
dict insertion order. -/
def position_word_pairs (invIdx : List (String × List Nat)) : List (Nat × String) :=
  invIdx.flatMap (fun p => p.2.map (fun pos => (pos, p.1)))

/-- Lookup in the `position_word` dict: a Python dict assignment is
"last write wins", so the value of a key is the second component of the
*last* pair recorded for it. -/
def dict_get (pairs : List (Nat × String)) (k : Nat) : Option String :=
  (pairs.reverse.find? (fun q => q.1 == k)).map (·.2)

/-- `OpenAlexClient._reconstruct_abstract` (src/openalex.py): turn the
word → position-list inverted index into a flat string by placing each word
at its recorded position(s) and joining with spaces over
`range(max_pos + 1)`, with `''` at unrecorded positions. -/
def reconstruct_abstract (invIdx : List (String × List Nat)) : String :=
  if invIdx.isEmpty then ""
  else
    let pw := position_word_pairs invIdx
    if pw.isEmpty then ""
    else
      let maxPos := (pw.map (·.1)).foldl max 0
      let words := (List.range (maxPos + 1)).map (fun i => (dict_get pw i).getD "")
      " ".intercalate words


/-! ## The feed registry (src/rss_parser.py) -/

/-- An XML element as seen by `xml.etree.ElementTree` in `_parse_opml`
(src/rss_parser.py): its tag, the three attributes the parser reads
(`text`, `title`, `xmlUrl`), and its child elements in document order. -/
inductive XmlElem where
  | node (tag : String) (attr_text attr_title attr_xmlUrl : Option String)
      (children : List XmlElem)

/-- The `tag` of an element. -/
def XmlElem.tag : XmlElem → String
  | .node t _ _ _ _ => t

/-- `elem.get('text')`. -/
def XmlElem.attr_text : XmlElem → Option String
  | .node _ a _ _ _ => a

/-- `elem.get('title')`. -/
def XmlElem.attr_title : XmlElem → Option String
  | .node _ _ a _ _ => a

/-- `elem.get('xmlUrl')`. -/
def XmlElem.attr_xmlUrl : XmlElem → Option String
  | .node _ _ _ a _ => a

/-- `list(elem)`: the direct children. -/
def XmlElem.children : XmlElem → List XmlElem
  | .node _ _ _ _ c => c

mutual

/-- `root.iter('outline')`: every element with tag `outline` in document
order (an element precedes its descendants, children left to right). -/
def iter_outline : XmlElem → List XmlElem
  | .node tag ta ti xu cs =>
    (if tag = "outline" then [XmlElem.node tag ta ti xu cs] else [])
      ++ iter_outline_list cs

/-- `iter_outline` over a sibling list. -/
def iter_outline_list : List XmlElem → List XmlElem
  | [] => []
  | c :: cs => iter_outline c ++ iter_outline_list cs

end

/-- The `FeedInfo` dataclass (src/rss_parser.py). -/
structure FeedInfo where
  name : String
  url : String
  category : String
  deriving DecidableEq

/-- `child.get('title') or child.get('text', 'Unknown')`: Python `or`
falls through on a missing or empty (falsy) `title`. -/
def feed_name (e : XmlElem) : String :=
  match e.attr_title with
  | some t => if t = "" then e.attr_text.getD "Unknown" else t
  | none => e.attr_text.getD "Unknown"

/-- `xml_url = elem.get('xmlUrl'); if xml_url:` — the attribute must be
present and non-empty (truthy). -/
def xml_url_of (e : XmlElem) : Option String :=
  match e.attr_xmlUrl with
  | some u => if u = "" then none else some u
  | none => none

/-- `RSSParser._parse_opml` (src/rss_parser.py): for every element of
`root.iter('outline')`, an element with children is treated as a folder
(each child with a truthy `xmlUrl` is appended under the folder's `text`
category), and an element without children is treated as a standalone feed
(appended under `'Uncategorized'` if its own `xmlUrl` is truthy). -/
def parse_opml_feeds (root : XmlElem) : List FeedInfo :=
  (iter_outline root).flatMap (fun o =>
    if o.children.isEmpty then
      match xml_url_of o with
      | some xu => [{ name := feed_name o, url := xu, category := "Uncategorized" }]
      | none => []
    else
      let category := o.attr_text.getD "Uncategorized"
      o.children.filterMap (fun child =>
        match xml_url_of child with
        | some xu => some { name := feed_name child, url := xu, category := category }
        | none => none))

/-- A minimal OPML document with one named group holding one feed:
`<opml><body><outline text="Geo"><outline title="Feed1"
xmlUrl="http://f1"/></outline></body></opml>`. -/
def opml_one_nested_feed : XmlElem :=
  .node "opml" none none none
    [.node "body" none none none
      [.node "outline" (some "Geo") none none
        [.node "outline" none (some "Feed1") (some "http://f1") []]]]


/-! ## The summarizer and the language-model oracle (src/summarizer.py) -/

/-- The `TranslationResult` dataclass (src/summarizer.py). -/
structure TranslationResult where
  title_ko : String
  abstract_ko : String
  summary_ko : String
  priority : String
  keywords_matched : List String
  deriving DecidableEq

/-- The Claude API modeled as oracles: `messages_create_full` is the raw
response text for `_call_claude_api`'s prompt on a `(title, abstract)`
pair, `messages_create_title` the response for `_translate_title`'s
title-only prompt; `Except.error` models a call that raises. -/
structure LMOracle where
  messages_create_full : String → String → Except Unit String
  messages_create_title : String → Except Unit String

/-- `Summarizer._translate_title` (src/summarizer.py): return the stripped
response text, or the original title when the call raises (the bare
`except` inside the function). -/
def translate_title (o : LMOracle) (title : String) : String :=
  match o.messages_create_title title with
  | .ok t => py_strip t
  | .error _ => title

/-- The position just after the first occurrence of `marker`
(`re.search` finds the leftmost match), or `none` when `marker` does not
occur. -/
def after_first (marker : List Char) : List Char → Option (List Char)
  | [] => if marker.isEmpty then some [] else none
  | c :: t =>
    if marker.isPrefixOf (c :: t) then some ((c :: t).drop marker.length)
    else after_first marker t

/-- Everything strictly before the first occurrence of `marker` (the whole
list when `marker` does not occur). -/
def take_until_marker (marker : List Char) : List Char → List Char
  | [] => []
  | c :: t =>
    if marker.isPrefixOf (c :: t) then [] else c :: take_until_marker marker t

/-- One section-extraction regex of `Summarizer._parse_response`
(src/summarizer.py): `re.search(r'\[LABEL\]\s*\n(.+?)(?=\n\[|\Z)', text,
re.DOTALL)` followed by `.group(1).strip()`, and `""` when there is no
match.  After the first `[LABEL]`: the maximal whitespace run must contain
a newline (`\s*\n`, backtracking to its last newline), the non-empty lazy
capture then runs to the next `"\n["` or the end of the text. -/
def extract_section (label : String) (response : String) : String :=
  match after_first ("[" ++ label ++ "]").data response.data with
  | none => ""
  | some rest =>
    let ws := rest.takeWhile Char.isWhitespace
    if ws.contains '\n' then
      let after_ws := rest.drop ws.length
      let tail_ws := (ws.reverse.takeWhile (fun c => c ≠ '\n')).reverse
      let captured := take_until_marker "\n[".data (tail_ws ++ after_ws)
      if captured.isEmpty then "" else py_strip ⟨captured⟩
    else ""

/-- `Summarizer._parse_response` (src/summarizer.py): extract the three
labeled sections (each `""` when missing); priority and keywords are
filled in later by the caller. -/
def parse_response (response_text : String) : TranslationResult :=
  { title_ko := extract_section "제목 번역" response_text
    abstract_ko := extract_section "초록 번역" response_text
    summary_ko := extract_section "핵심 요약" response_text
    priority := "normal"
    keywords_matched := [] }

/-- `Summarizer.translate_and_summarize` (src/summarizer.py), on
`article.get('title', '')` and `article.get('abstract', '')`: classify;
with no usable abstract only translate the title; otherwise call the API —
a successful response is parsed (missing sections become `""`), and a call
that raises is caught here, yielding the fallback markers
`"(번역 실패)"` / `"(요약 실패)"`. -/
def translate_and_summarize (o : LMOracle) (title abstract : String) :
    TranslationResult :=
  let pk := check_priority title abstract
  if abstract = "" ∨ abstract.length < 50 then
    { title_ko := translate_title o title
      abstract_ko := ""
      summary_ko := "(초록 없음)"
      priority := pk.1
      keywords_matched := pk.2 }
  else
    match o.messages_create_full title abstract with
    | .ok text =>
      let r := parse_response text
      { r with priority := pk.1, keywords_matched := pk.2 }
    | .error _ =>
      { title_ko := translate_title o title
        abstract_ko := "(번역 실패)"
        summary_ko := "(요약 실패)"
        priority := pk.1
        keywords_matched := pk.2 }

/-! ## Store updates and selections (src/database.py, src/openalex.py,
src/semantic_scholar.py) -/

/-- Python truthiness of an optional string (`if s:`): present and
non-empty.  Also models SQL `s IS NOT NULL AND s != ''`. -/
def truthy_str : Option String → Bool
  | none => false
  | some v => !(v == "")

/-- `Database.update_article_translation` (src/database.py):
`UPDATE articles SET title_ko=?, abstract_ko=?, summary_ko=? WHERE id=?`. -/
def update_article_translation (articles : List ArticleRow) (aid : Nat)
    (title_ko abstract_ko summary_ko : String) : List ArticleRow :=
  articles.map (fun r =>
    if r.id = aid then
      { r with title_ko := some title_ko, abstract_ko := some abstract_ko,
               summary_ko := some summary_ko }
    else r)

/-- `Database.update_article_abstract` (src/database.py): set the abstract,
and also the two Korean fields when both are truthy
(`if abstract_ko and summary_ko`). -/
def update_article_abstract (articles : List ArticleRow) (aid : Nat)
    (abstract : String) (abstract_ko summary_ko : Option String) :
    List ArticleRow :=
  articles.map (fun r =>
    if r.id = aid then
      if truthy_str abstract_ko && truthy_str summary_ko then
        { r with abstract := some abstract, abstract_ko := abstract_ko,
                 summary_ko := summary_ko }
      else { r with abstract := some abstract }
    else r)

/-- `Database.update_article_priority` (src/database.py): set the priority
and the JSON-serialized keyword list (`json.dumps(keywords_matched) if
keywords_matched else None`). -/
def update_article_priority (articles : List ArticleRow) (aid : Nat)
    (priority : String) (keywords : Option (List String)) : List ArticleRow :=
  articles.map (fun r =>
    if r.id = aid then
      { r with priority := priority,
               keywords_matched :=
                 match keywords with
                 | some l => if l.isEmpty then none
                             else some (json_dumps_strings l)
                 | none => none }
    else r)

/-- SQL predicate of `translate_priority_articles` (src/openalex.py):
priority in the given set, a non-NULL abstract of length ≥ 50, and a
NULL-or-empty translated abstract or summary. -/
def needs_translation (priorities : List String) (r : ArticleRow) : Bool :=
  priorities.contains r.priority &&
    (match r.abstract with
     | some a => decide (50 ≤ a.length)
     | none => false) &&
    (r.abstract_ko == none || r.abstract_ko == some "" ||
      r.summary_ko == none || r.summary_ko == some "")

/-- The loop body of `translate_priority_articles` (src/openalex.py): one
summarizer call on the selected row's title and abstract, written back via
`update_article_translation` (the modeled call never raises, so the
`except` arm that would skip the write is unreachable). -/
def translate_step (o : LMOracle) (acc : List ArticleRow) (a : ArticleRow) :
    List ArticleRow :=
  let r := translate_and_summarize o (a.title.getD "") (a.abstract.getD "")
  update_article_translation acc a.id r.title_ko r.abstract_ko r.summary_ko

/-- The write-back loop of `translate_priority_articles`. -/
def translate_fold (o : LMOracle) (sel acc : List ArticleRow) :
    List ArticleRow :=
  sel.foldl (translate_step o) acc

/-- `translate_priority_articles` (src/openalex.py): fetch every row still
needing translation up front, then translate each and write it back;
the second component counts the translation calls issued (the source
increments `translated` once per selected article). -/
def translate_priority_articles (o : LMOracle) (priorities : List String)
    (articles : List ArticleRow) : List ArticleRow × Nat :=
  let selected := articles.filter (needs_translation priorities)
  (translate_fold o selected articles, selected.length)

/-! ## The abstract-enrichment chain (src/openalex.py,
src/semantic_scholar.py) -/

/-- The `OpenAlexWork` dataclass (src/openalex.py), reduced to the one
field the enrichment chain reads (`doi`, `title`, `authors`,
`publication_year`, `cited_by_count` and `open_access_url` are carried but
never consumed by the modeled pipeline). -/
structure OpenAlexWork where
  abstract : String
  deriving DecidableEq

/-- The suffix after the last occurrence of `marker` (the whole list when
`marker` is absent): Python `s.split(marker)[-1]`. -/
def after_last_occurrence (marker : List Char) : List Char → List Char
  | [] => []
  | c :: t =>
    if strIn marker t then after_last_occurrence marker t
    else if marker.isPrefixOf (c :: t) then (c :: t).drop marker.length
    else c :: t

/-- The DOI normalization shared by `OpenAlexClient.get_work_by_doi` and
`SemanticScholarClient.get_paper_by_doi`: strip, and for an `http…` URL
keep what follows the last `doi.org/`. -/
def normalize_doi (doi : String) : String :=
  let d := py_strip doi
  if "http".data.isPrefixOf d.data then
    ⟨after_last_occurrence "doi.org/".data d.data⟩
  else d

/-- `OpenAlexClient.get_work_by_doi` (src/openalex.py) over an oracle
mapping a normalized DOI to the `abstract_inverted_index` of a 200
response (`none` models a 404 or a raised request, both returning `None`).
An absent or empty index leaves the abstract `""`; otherwise it is
reconstructed. -/
def get_work_by_doi (oracle : String → Option (List (String × List Nat)))
    (doi : String) : Option OpenAlexWork :=
  match oracle (normalize_doi doi) with
  | none => none
  | some idx => some { abstract := reconstruct_abstract idx }

/-- `Database.get_articles_without_abstract` (src/database.py): rows joined
to an existing journal, with a truthy DOI and a NULL or short (< 50)
abstract, most recently fetched first, up to `limit`.  The table is kept
in insertion order, so `fetched_at DESC` is modeled as the reverse of that
order (SQLite leaves ties unordered, and the orchestrator passes a limit
covering every candidate, making the order immaterial there). -/
def get_articles_without_abstract (journals : List JournalRow)
    (articles : List ArticleRow) (limit : Nat) : List ArticleRow :=
  ((articles.filter (fun r =>
      (match r.journal_id with
       | some jid => journals.any (fun j => j.id == jid)
       | none => false) &&
      truthy_str r.doi &&
      (match r.abstract with
       | none => true
       | some a => decide (a.length < 50)))).reverse).take limit

/-- The per-article body of `fetch_missing_abstracts` (src/openalex.py):
skip rows without a truthy DOI, query OpenAlex, and on a usable abstract
(non-empty, length ≥ 50) write it back — together with its translation and
possibly a new priority when `translate` is on and a summarizer is
available (`translate_and_summarize` never raises in the model, so the
`except` arm writing only the abstract is unreachable). -/
def openalex_step (oracleA : String → Option (List (String × List Nat)))
    (oLM : Option LMOracle) (translate : Bool)
    (acc : List ArticleRow × Nat) (a : ArticleRow) : List ArticleRow × Nat :=
  if (a.doi.getD "") = "" then acc
  else
    match get_work_by_doi oracleA (a.doi.getD "") with
    | some w =>
      if !(w.abstract == "") && decide (50 ≤ w.abstract.length) then
        match translate, oLM with
        | true, some o =>
          let r := translate_and_summarize o (a.title.getD "") w.abstract
          let acc1 := update_article_abstract acc.1 a.id w.abstract
            (some r.abstract_ko) (some r.summary_ko)
          let acc2 :=
            if r.priority ≠ "normal" then
              update_article_priority acc1 a.id r.priority (some r.keywords_matched)
            else acc1
          (acc2, acc.2 + 1)
        | _, _ => (update_article_abstract acc.1 a.id w.abstract none none, acc.2 + 1)
      else acc
    | none => acc

/-- `fetch_missing_abstracts` (src/openalex.py): fetch the candidates up
front, run the per-article body over them, and return the new table with
the number of updated articles. -/
def fetch_missing_abstracts (oracleA : String → Option (List (String × List Nat)))
    (oLM : Option LMOracle) (translate : Bool) (journals : List JournalRow)
    (articles : List ArticleRow) (limit : Nat) : List ArticleRow × Nat :=
  (get_articles_without_abstract journals articles limit).foldl
    (openalex_step oracleA oLM translate) (articles, 0)

/-- The candidate selection of `fetch_abstracts_from_semantic_scholar`
(src/semantic_scholar.py): NULL, empty or short abstract, truthy DOI, up
to `limit`, in table order (the query has no ORDER BY). -/
def ss_candidates (articles : List ArticleRow) (limit : Nat) : List ArticleRow :=
  (articles.filter (fun r =>
    (match r.abstract with
     | none => true
     | some a => a == "" || decide (a.length < 50)) &&
    truthy_str r.doi)).take limit

/-- The ids of the articles for which the Semantic Scholar loop actually
issues a `get_paper_by_doi` call: every fetched candidate passing the
`if not doi: continue` check. -/
def ss_queried_ids (articles : List ArticleRow) (limit : Nat) : List Nat :=
  ((ss_candidates articles limit).filter
      (fun a => !((a.doi.getD "") == ""))).map (·.id)

/-- The per-article body of `fetch_abstracts_from_semantic_scholar`
(src/semantic_scholar.py): skip rows without a truthy DOI, query the
oracle (a direct abstract, no reconstruction; `none` models 404/429/raise)
and write back a usable (non-empty, length ≥ 50) abstract. -/
def semantic_scholar_step (oracleB : String → Option String)
    (acc : List ArticleRow × Nat) (a : ArticleRow) : List ArticleRow × Nat :=
  if (a.doi.getD "") = "" then acc
  else
    match oracleB (normalize_doi (a.doi.getD "")) with
    | some ab =>
      if !(ab == "") && decide (50 ≤ ab.length) then
        (update_article_abstract acc.1 a.id ab none none, acc.2 + 1)
      else acc
    | none => acc

/-- `fetch_abstracts_from_semantic_scholar` (src/semantic_scholar.py). -/
def fetch_abstracts_from_semantic_scholar (oracleB : String → Option String)
    (articles : List ArticleRow) (limit : Nat) : List ArticleRow × Nat :=
  (ss_candidates articles limit).foldl (semantic_scholar_step oracleB) (articles, 0)

/-! ## Priority recheck and the orchestrator (src/openalex.py, main.py) -/

/-- The selection of `recheck_priorities` (src/openalex.py): abstract of
length ≥ 50 and `keywords_matched` NULL or `'[]'`. -/
def recheck_candidates (articles : List ArticleRow) : List ArticleRow :=
  articles.filter (fun r =>
    (match r.abstract with
     | some a => decide (50 ≤ a.length)
     | none => false) &&
    (r.keywords_matched == none || r.keywords_matched == some "[]"))

/-- The loop body of `recheck_priorities` (src/openalex.py): re-run the
keyword scan on a candidate (`article['title'] or ''` guards NULL columns)
and update priority and keywords only when the scan matched something. -/
def recheck_step (acc : List ArticleRow × Nat) (a : ArticleRow) :
    List ArticleRow × Nat :=
  let pk := check_priority (a.title.getD "") (a.abstract.getD "")
  if pk.2.isEmpty then acc
  else (update_article_priority acc.1 a.id pk.1 (some pk.2), acc.2 + 1)

/-- `recheck_priorities` (src/openalex.py); the second component is the
`rechecked` count (the per-tier tallies are logging only). -/
def recheck_priorities (articles : List ArticleRow) : List ArticleRow × Nat :=
  (recheck_candidates articles).foldl recheck_step (articles, 0)

/-- `Database.get_or_create_journal` (src/database.py): look the journal up
by name, creating it when absent; returns its id. -/
def get_or_create_journal (journals : List JournalRow) (name feed_url : String)
    (category : Option String) : Nat × List JournalRow :=
  match journals.find? (fun j => j.name == name) with
  | some j => (j.id, journals)
  | none =>
    let jid := (journals.map (·.id)).foldl max 0 + 1
    (jid, journals ++ [{ id := jid, name := name, feed_url := feed_url,
                         category := category }])

/-- Step 2 of `JournalMonitor.run` (main.py): write the classifier's
priority and matched keywords into each collected article dict. -/
def classify_articles (batch : List ArticleInput) : List ArticleInput :=
  batch.map (fun a =>
    let pk := check_priority (a.title.getD "") (a.abstract.getD "")
    { a with priority := some pk.1, keywords_matched := some pk.2 })

/-- The loop body of step 3 of `JournalMonitor.run` (main.py): resolve the
article's journal (`get_or_create_journal(name=article.get('journal_name',
'Unknown'), feed_url='', category=article.get('category'))`), set
`journal_id`, insert, and count the insert if it returned an id. -/
def persist_step (acc : List JournalRow × List ArticleRow × Nat)
    (a : ArticleInput) : List JournalRow × List ArticleRow × Nat :=
  let jres := get_or_create_journal acc.1 (a.journal_name.getD "Unknown") "" a.category
  let ires := insert_article acc.2.1 { a with journal_id := some jres.1 }
  (jres.2, ires.2, if ires.1.isSome then acc.2.2 + 1 else acc.2.2)

/-- Step 3 of `JournalMonitor.run` (main.py). -/
def persist_articles (batch : List ArticleInput) (journals : List JournalRow)
    (articles : List ArticleRow) : List JournalRow × List ArticleRow × Nat :=
  batch.foldl persist_step (journals, articles, 0)

/-- `can_fetch_from_openalex` of `Database.get_abstract_stats`
(src/database.py): the count of rows with a truthy DOI and a NULL or short
abstract (no journal join, no limit). -/
def can_fetch_count (articles : List ArticleRow) : Nat :=
  (articles.filter (fun r =>
    truthy_str r.doi &&
    (match r.abstract with
     | none => true
     | some a => decide (a.length < 50)))).length

/-- The external services consumed by one orchestrator run. -/
structure PipelineOracles where
  lm : LMOracle
  openalex : String → Option (List (String × List Nat))
  semantic_scholar : String → Option String

/-- The observable outcome of one orchestrator run. -/
structure RunResult where
  journals : List JournalRow
  articles : List ArticleRow
  new_count : Nat
  translate_calls : Nat

/-- Step 4 of `JournalMonitor.run` (main.py): when `can_fetch > 0`,
OpenAlex enrichment with `limit = can_fetch` and `translate=False`,
followed by Semantic Scholar with `limit = 50`; otherwise a no-op. -/
def enrich_stage (o : PipelineOracles) (journals : List JournalRow)
    (rows : List ArticleRow) : List ArticleRow :=
  if 0 < can_fetch_count rows then
    (fetch_abstracts_from_semantic_scholar o.semantic_scholar
      (fetch_missing_abstracts o.openalex none false journals rows
        (can_fetch_count rows)).1 50).1
  else rows

/-- One invocation of `JournalMonitor.run` (main.py) over an already
collected feed batch, restricted to the pipeline stages.  When the
collection is empty the run returns immediately (`if not articles:
return {'total': 0, 'new': 0}`), touching nothing; otherwise it performs
classify (step 2), persist (step 3), the enrichment chain (step 4),
priority recheck (step 5), and the translation gate over `['high']`
(step 6).  Report generation and email (steps 7–8) read the store but
never write articles. -/
def run_once (o : PipelineOracles) (batch : List ArticleInput)
    (journals : List JournalRow) (articles : List ArticleRow) : RunResult :=
  if batch.isEmpty then
    { journals := journals, articles := articles,
      new_count := 0, translate_calls := 0 }
  else
    let step3 := persist_articles (classify_articles batch) journals articles
    let rows3 := enrich_stage o step3.1 step3.2.1
    let rows4 := (recheck_priorities rows3).1
    let tres := translate_priority_articles o.lm ["high"] rows4
    { journals := step3.1, articles := tres.1,
      new_count := step3.2.2, translate_calls := tres.2 }


/-! ## Derived predicates and concrete fixtures -/

/-- A row's two Korean translation result fields are both present and
non-empty — the negation of the translation gate's retry-eligibility
disjunction. -/
def translation_filled (r : ArticleRow) : Bool :=
  truthy_str r.abstract_ko && truthy_str r.summary_ko

/-- A row's abstract counts as missing for the enrichment chain:
NULL or shorter than 50 characters. -/
def abstract_missing (r : ArticleRow) : Bool :=
  match r.abstract with
  | none => true
  | some a => decide (a.length < 50)

/-- A row carries a usable abstract (present, length ≥ 50). -/
def abstract_filled (r : ArticleRow) : Bool :=
  match r.abstract with
  | some a => decide (50 ≤ a.length)
  | none => false

/-- Provider A resolves this row's DOI to a usable abstract (the guard of
`fetch_missing_abstracts`'s write-back). -/
def oa_usable (oracle : String → Option (List (String × List Nat)))
    (r : ArticleRow) : Bool :=
  match get_work_by_doi oracle (r.doi.getD "") with
  | some w => !(w.abstract == "") && decide (50 ≤ w.abstract.length)
  | none => false

/-- Provider B resolves this row's DOI to a usable abstract (the guard of
`fetch_abstracts_from_semantic_scholar`'s write-back). -/
def ss_usable (oracle : String → Option String) (r : ArticleRow) : Bool :=
  match oracle (normalize_doi (r.doi.getD "")) with
  | some ab => !(ab == "") && decide (50 ≤ ab.length)
  | none => false

/-- The translation result the summarizer produces for a selected row. -/
def row_translation (o : LMOracle) (a : ArticleRow) : TranslationResult :=
  translate_and_summarize o (a.title.getD "") (a.abstract.getD "")

/-- A 60-character abstract that matches no configured keyword. -/
def plain_abstract : String :=
  "zzzzzzzzzzzzzzzzzzzzzzzzzzzzzzzzzzzzzzzzzzzzzzzzzzzzzzzzzzzz"

/-- A stored high-priority article with a usable abstract and all three
translated fields still NULL. -/
def pending_row : ArticleRow :=
  { id := 1, journal_id := some 1, title := some "T", title_ko := none,
    authors := none, abstract := some plain_abstract, abstract_ko := none,
    summary_ko := none, url := some "u", doi := none, published_date := none,
    hash := generate_hash "T" "u", priority := "high",
    keywords_matched := some "[\"x\"]" }

/-- A language-model oracle whose every call raises. -/
def lm_raises : LMOracle :=
  { messages_create_full := fun _ _ => Except.error ()
    messages_create_title := fun _ => Except.error () }

/-- A response with title and abstract sections but no summary section. -/
def response_without_summary : String :=
  "[제목 번역]\n번역된 제목\n[초록 번역]\n번역된 초록"

/-- A response carrying all three labeled sections. -/
def response_complete : String :=
  "[제목 번역]\n번역된 제목\n[초록 번역]\n번역된 초록\n[핵심 요약]\n핵심 논점"

/-- An oracle that always answers with `response_without_summary`. -/
def lm_no_summary : LMOracle :=
  { messages_create_full := fun _ _ => Except.ok response_without_summary
    messages_create_title := fun _ => Except.error () }

/-- An oracle that always answers with `response_complete`. -/
def lm_complete : LMOracle :=
  { messages_create_full := fun _ _ => Except.ok response_complete
    messages_create_title := fun _ => Except.error () }

/-- Pipeline oracles: well-formed LM responses, no bibliographic hits. -/
def oracles_complete : PipelineOracles :=
  { lm := lm_complete, openalex := fun _ => none,
    semantic_scholar := fun _ => none }

/-- Pipeline oracles: LM responses missing the summary section, no
bibliographic hits. -/
def oracles_no_summary : PipelineOracles :=
  { lm := lm_no_summary, openalex := fun _ => none,
    semantic_scholar := fun _ => none }

/-- A one-article feed batch whose title carries a high-tier keyword and
whose abstract is usable. -/
def witness_batch : List ArticleInput :=
  [{ title := some "Foucault study", url := some "http://x",
     abstract := some plain_abstract, journal_name := some "J" }]


/-- A 50-character word, reconstructing to a usable abstract. -/
def long_word : String :=
  "qqqqqqqqqqqqqqqqqqqqqqqqqqqqqqqqqqqqqqqqqqqqqqqqqq"

/-- A stored article with a DOI and no abstract, joined to journal 1. -/
def doi_row : ArticleRow :=
  { id := 7, journal_id := some 1, title := some "D", title_ko := none,
    authors := none, abstract := none, abstract_ko := none,
    summary_ko := none, url := some "w", doi := some "10.1/x",
    published_date := none, hash := generate_hash "D" "w",
    priority := "normal", keywords_matched := none }

/-- The journal `doi_row` belongs to. -/
def journal_one : JournalRow :=
  { id := 1, name := "J", feed_url := "", category := none }

/-- An OpenAlex oracle resolving every DOI to a one-word usable
inverted-index abstract. -/
def oa_always_hits : String → Option (List (String × List Nat)) :=
  fun _ => some [(long_word, [0])]

/-! ## Theorems -/

/-- C6: if any high-tier keyword occurs in the lowercased text, the priority
is `high` and every matched keyword is a high-tier term. -/
theorem C6_high_tier_precedence (title abstract : String)
    (h : ∃ kw ∈ priority_keywords_high,
        strIn (str_lower kw).data (str_lower (title ++ " " ++ abstract)).data = true) :
    (check_priority title abstract).1 = "high" ∧
      ∀ k ∈ (check_priority title abstract).2, k ∈ priority_keywords_high := by
  obtain ⟨kw, hkw, hin⟩ := h
  have hmem : kw ∈ priority_keywords_high.filter
      (fun kw => strIn (str_lower kw).data (str_lower (title ++ " " ++ abstract)).data) :=
    List.mem_filter.mpr ⟨hkw, hin⟩
  have hne : (priority_keywords_high.filter
      (fun kw => strIn (str_lower kw).data (str_lower (title ++ " " ++ abstract)).data)).isEmpty
        = false := by
    cases hfilter : priority_keywords_high.filter
        (fun kw => strIn (str_lower kw).data (str_lower (title ++ " " ++ abstract)).data) with
    | nil => rw [hfilter] at hmem; exact absurd hmem (List.not_mem_nil kw)
    | cons a t => simp [List.isEmpty]
  constructor
  · simp only [check_priority, hne]
    rfl
  · intro k hk
    simp only [check_priority, hne] at hk
    exact (List.mem_filter.mp hk).1

/-- Witness for `C6_high_tier_precedence` at the concrete input
title = "Territory", abstract = "". -/
theorem C6_high_tier_precedence_witness :
    (check_priority "Territory" "").1 = "high" ∧
      ∀ k ∈ (check_priority "Territory" "").2, k ∈ priority_keywords_high :=
  C6_high_tier_precedence "Territory" "" ⟨"territory", by decide, by decide⟩

/-- C10: keyword matching is raw substring matching, not whole-word matching:
no word of the lowercased text "current " is a configured keyword, yet the
classifier returns a non-normal priority with the medium-tier term "rent"
(a substring of "current") among the matches. -/
theorem C10_substring_matching_not_whole_word :
    (∀ w ∈ split_space (str_lower ("Current" ++ " " ++ "")).data,
        w ∉ priority_keywords_high.map String.data ∧
        w ∉ priority_keywords_medium.map String.data) ∧
      (check_priority "Current" "").1 = "medium" ∧
      "rent" ∈ (check_priority "Current" "").2 := by decide

/-- C2: inserting the same `(title, url)` pair twice — even with different
other fields — yields exactly one stored row: the first insert (of a pair
whose hash is not yet stored) returns a fresh id, the second returns `none`
and leaves the table unchanged, and exactly one row with that hash is
stored. -/
theorem C2_insert_at_most_once (articles : List ArticleRow) (a1 a2 : ArticleInput)
    (htitle : a1.title = a2.title) (hurl : a1.url = a2.url)
    (hnew : article_exists articles
        (generate_hash (a1.title.getD "") (a1.url.getD "")) = false) :
    (insert_article articles a1).1 = some (next_article_id articles) ∧
      (insert_article articles a1).2.length = articles.length + 1 ∧
      (insert_article (insert_article articles a1).2 a2).1 = none ∧
      (insert_article (insert_article articles a1).2 a2).2
        = (insert_article articles a1).2 ∧
      ((insert_article articles a1).2.filter (fun r =>
          r.hash == generate_hash (a1.title.getD "") (a1.url.getD ""))).length = 1 := by
  have hsame : generate_hash (a2.title.getD "") (a2.url.getD "")
      = generate_hash (a1.title.getD "") (a1.url.getD "") := by
    rw [htitle, hurl]
  have hfilter : articles.filter (fun r =>
      r.hash == generate_hash (a1.title.getD "") (a1.url.getD "")) = [] := by
    rw [List.filter_eq_nil_iff]
    intro r hr hbeq
    have : articles.any (fun r =>
        r.hash == generate_hash (a1.title.getD "") (a1.url.getD "")) = true :=
      List.any_eq_true.mpr ⟨r, hr, hbeq⟩
    rw [article_exists] at hnew
    rw [hnew] at this
    exact Bool.false_ne_true this
  simp only [insert_article, hnew, Bool.false_eq_true, if_false]
  refine ⟨trivial, by simp, ?_, ?_, ?_⟩
  · simp [article_exists, hsame, List.any_append]
  · simp [article_exists, hsame, List.any_append]
  · simp [List.filter_append, hfilter]

/-- Witness for `C2_insert_at_most_once`: the same `(title, url)` inserted
twice into the empty store with different priorities. -/
theorem C2_insert_at_most_once_witness :
    (insert_article [] { title := some "t", url := some "u" }).1 = some (next_article_id []) ∧
      (insert_article [] { title := some "t", url := some "u" }).2.length
      = ([] : List ArticleRow).length + 1 ∧
      (insert_article (insert_article [] { title := some "t", url := some "u" }).2
        { title := some "t", url := some "u", priority := some "high" }).1 = none ∧
      (insert_article (insert_article [] { title := some "t", url := some "u" }).2
        { title := some "t", url := some "u", priority := some "high" }).2
        = (insert_article [] { title := some "t", url := some "u" }).2 ∧
      ((insert_article [] { title := some "t", url := some "u" }).2.filter (fun r =>
          r.hash == generate_hash ((some "t").getD "") ((some "u").getD ""))).length = 1 :=
  C2_insert_at_most_once [] { title := some "t", url := some "u" }
    { title := some "t", url := some "u", priority := some "high" } rfl rfl (by decide)

/-- C5 counterexample: an article whose matched-keyword list is the empty
list and an article whose list is absent store the *same* representation
(NULL) in the `keywords_matched` column, refuting the claim that the empty
list is encoded distinctly from the absent/null case. -/
theorem C5_counterexample :
    ((insert_article [] { title := some "t", url := some "u",
                          keywords_matched := some [] }).2.map (·.keywords_matched))
      = ((insert_article [] { title := some "t", url := some "u" }).2.map
          (·.keywords_matched)) ∧
    ((insert_article [] { title := some "t", url := some "u",
                          keywords_matched := some [] }).2.map (·.keywords_matched)) = [none] := by
  decide

/-- C5 amended: `matched_keywords` is serialized as an ordered JSON list
only when non-empty; an empty or absent list is stored as NULL — the empty
list is *not* encoded distinctly from the absent case. -/
theorem C5_keywords_encoding (articles : List ArticleRow) (a : ArticleInput)
    (hnew : article_exists articles
        (generate_hash (a.title.getD "") (a.url.getD "")) = false) :
    ∃ row, (insert_article articles a).2 = articles ++ [row] ∧
      ((a.keywords_matched.getD []).isEmpty = true → row.keywords_matched = none) ∧
      ((a.keywords_matched.getD []).isEmpty = false →
        row.keywords_matched = some (json_dumps_strings (a.keywords_matched.getD []))) := by
  simp only [insert_article, hnew, Bool.false_eq_true, if_false]
  refine ⟨_, rfl, ?_, ?_⟩
  · intro h
    simp [h]
  · intro h
    simp [h]

/-- Witness for `C5_keywords_encoding`: inserting an article carrying a
non-empty matched-keyword list into the empty store. -/
theorem C5_keywords_encoding_witness :
    ∃ row, (insert_article [] { title := some "t", url := some "u",
                                keywords_matched := some ["rent"] }).2 = [] ++ [row] ∧
      (((some ["rent"] : Option (List String)).getD []).isEmpty = true →
        row.keywords_matched = none) ∧
      (((some ["rent"] : Option (List String)).getD []).isEmpty = false →
        row.keywords_matched = some (json_dumps_strings
          ((some ["rent"] : Option (List String)).getD []))) :=
  C5_keywords_encoding [] { title := some "t", url := some "u",
                            keywords_matched := some ["rent"] } (by decide)

/-- C9: the identity hash is not injective on `(title, url)` pairs: the
distinct pairs `("a|b", "c")` and `("a", "b|c")` hash identically, so after
inserting the first article the logically different second article is
rejected (`none`) and never stored. -/
theorem C9_hash_not_injective :
    generate_hash "a|b" "c" = generate_hash "a" "b|c" ∧
      (("a|b", "c") : String × String) ≠ ("a", "b|c") ∧
      (insert_article (insert_article [] { title := some "a|b", url := some "c" }).2
        { title := some "a", url := some "b|c" }).1 = none ∧
      (insert_article (insert_article [] { title := some "a|b", url := some "c" }).2
        { title := some "a", url := some "b|c" }).2
        = (insert_article [] { title := some "a|b", url := some "c" }).2 ∧
      ∀ r ∈ (insert_article (insert_article [] { title := some "a|b", url := some "c" }).2
          { title := some "a", url := some "b|c" }).2, r.title ≠ some "a" := by
  decide

/-- Helper: the initial value bounds `List.foldl max` from below. -/
theorem le_foldl_max (l : List Nat) (init : Nat) : init ≤ l.foldl max init := by
  induction l generalizing init with
  | nil => exact le_refl init
  | cons x t ih => exact le_trans (le_max_left init x) (ih (max init x))

/-- Helper: every member bounds `List.foldl max` from below. -/
theorem mem_le_foldl_max {l : List Nat} {a : Nat} (h : a ∈ l) (init : Nat) :
    a ≤ l.foldl max init := by
  induction l generalizing init with
  | nil => cases h
  | cons x t ih =>
    rcases List.mem_cons.mp h with rfl | hmem
    · exact le_trans (le_max_right init a) (le_foldl_max t (max init a))
    · exact ih hmem (max init x)

/-- Helper: in a pair list with no duplicate keys, `find?` on a key returns
the unique pair carrying it. -/
theorem find_eq_of_nodup_keys :
    ∀ (l : List (Nat × String)), (l.map Prod.fst).Nodup →
      ∀ {p : Nat} {w : String}, (p, w) ∈ l →
        l.find? (fun q => q.1 == p) = some (p, w) := by
  intro l
  induction l with
  | nil => intro _ p w hmem; cases hmem
  | cons q t ih =>
    intro hnd p w hmem
    by_cases hq : q.1 = p
    · have hqe : q = (p, w) := by
        rcases List.mem_cons.mp hmem with h | h
        · exact h.symm
        · exfalso
          have hkey : p ∈ t.map Prod.fst := List.mem_map.mpr ⟨(p, w), h, rfl⟩
          have := (List.nodup_cons.mp hnd).1
          rw [hq] at this
          exact this hkey
      rw [List.find?_cons_of_pos _ (by simp [hq])]
      rw [hqe]
    · have hmem' : (p, w) ∈ t := by
        rcases List.mem_cons.mp hmem with h | h
        · exfalso; apply hq; rw [← h]
        · exact h
      rw [List.find?_cons_of_neg _ (by simp [hq])]
      exact ih (List.nodup_cons.mp hnd).2 hmem'

/-- C8: reconstruction of an OpenAlex inverted-index abstract: the empty
index yields the empty string; a word with an empty position list is
omitted (removing it changes nothing); and on an index without duplicate
positions the result is the space-join of a word list of length
`max_pos + 1` that carries each recorded word at its recorded position —
total (a plain `String`) on every partial index. -/
theorem C8_reconstruct_placement :
    reconstruct_abstract [] = "" ∧
      (∀ idx w, reconstruct_abstract (idx ++ [(w, [])]) = reconstruct_abstract idx) ∧
      (∀ idx, ((position_word_pairs idx).map Prod.fst).Nodup →
        ∀ w ps p, (w, ps) ∈ idx → p ∈ ps →
          ∃ ws, reconstruct_abstract idx = " ".intercalate ws ∧
            ws.length = ((position_word_pairs idx).map (·.1)).foldl max 0 + 1 ∧
            ws[p]? = some w) := by
  refine ⟨rfl, ?_, ?_⟩
  · intro idx w
    have hpw : position_word_pairs (idx ++ [(w, [])]) = position_word_pairs idx := by
      simp [position_word_pairs]
    cases idx with
    | nil => simp [reconstruct_abstract, position_word_pairs]
    | cons a t =>
      simp only [reconstruct_abstract, hpw]
      rfl
  · intro idx hnd w ps p hw hp
    have hpair : (p, w) ∈ position_word_pairs idx := by
      unfold position_word_pairs
      rw [List.mem_flatMap]
      exact ⟨(w, ps), hw, List.mem_map.mpr ⟨p, hp, rfl⟩⟩
    have hkey : p ∈ (position_word_pairs idx).map (·.1) :=
      List.mem_map.mpr ⟨(p, w), hpair, rfl⟩
    have hmax : p ≤ ((position_word_pairs idx).map (·.1)).foldl max 0 :=
      mem_le_foldl_max hkey 0
    have hidxne : idx.isEmpty = false := by
      cases idx with
      | nil => cases hw
      | cons a t => rfl
    have hpwne : (position_word_pairs idx).isEmpty = false := by
      cases hpwl : position_word_pairs idx with
      | nil => rw [hpwl] at hpair; cases hpair
      | cons a t => rfl
    have hget : dict_get (position_word_pairs idx) p = some w := by
      unfold dict_get
      have hnd' : ((position_word_pairs idx).reverse.map Prod.fst).Nodup := by
        rw [List.map_reverse]
        exact List.nodup_reverse.mpr hnd
      rw [find_eq_of_nodup_keys _ hnd' (List.mem_reverse.mpr hpair)]
      rfl
    refine ⟨(List.range (((position_word_pairs idx).map (·.1)).foldl max 0 + 1)).map
      (fun i => (dict_get (position_word_pairs idx) i).getD ""), ?_, ?_, ?_⟩
    · simp only [reconstruct_abstract, hidxne, hpwne, Bool.false_eq_true, if_false]
    · simp
    · rw [List.getElem?_map, List.getElem?_range (Nat.lt_succ_of_le hmax)]
      simp [hget]

/-- Witness for `C8_reconstruct_placement` on the concrete index
`{"quick": [1], "The": [0]}`. -/
theorem C8_reconstruct_placement_witness :
    ∃ ws, reconstruct_abstract [("quick", [1]), ("The", [0])] = " ".intercalate ws ∧
      ws.length
        = ((position_word_pairs [("quick", [1]), ("The", [0])]).map (·.1)).foldl max 0 + 1 ∧
      ws[0]? = some "The" :=
  C8_reconstruct_placement.2.2 [("quick", [1]), ("The", [0])] (by decide)
    "The" [0] 0 (by decide) (by decide)

/-- C4: the parser emits a feed nested under a named group *twice* — once
with the group's category and once more, as the document-order iteration
revisits the nested element itself, under the default category — so the
document with exactly one feed entry yields two triples, not one. -/
theorem C4_nested_feed_emitted_twice :
    parse_opml_feeds opml_one_nested_feed
      = [{ name := "Feed1", url := "http://f1", category := "Geo" },
         { name := "Feed1", url := "http://f1", category := "Uncategorized" }] ∧
      (parse_opml_feeds opml_one_nested_feed).length ≠ 1 := by decide

/-- Helper: one translation write, viewed positionally — each slot is
either untouched or, when its id matches, overwritten with the given
fields. -/
theorem update_translation_cases (articles : List ArticleRow) (aid : Nat)
    (t a s : String) (i : Nat) :
    (update_article_translation articles aid t a s)[i]? = articles[i]? ∨
      ∃ r₀, articles[i]? = some r₀ ∧ r₀.id = aid ∧
        (update_article_translation articles aid t a s)[i]?
          = some { r₀ with title_ko := some t, abstract_ko := some a,
                           summary_ko := some s } := by
  unfold update_article_translation
  rw [List.getElem?_map]
  cases harts : articles[i]? with
  | none => left; rfl
  | some r₀ =>
    by_cases hid : r₀.id = aid
    · right; exact ⟨r₀, rfl, hid, by simp [hid]⟩
    · left; simp [hid]

/-- Helper: the per-article translation step, viewed positionally. -/
theorem translate_step_cases (o : LMOracle) (acc : List ArticleRow)
    (a : ArticleRow) (i : Nat) :
    (translate_step o acc a)[i]? = acc[i]? ∨
      ∃ r₀, acc[i]? = some r₀ ∧ r₀.id = a.id ∧
        (translate_step o acc a)[i]?
          = some { r₀ with title_ko := some (row_translation o a).title_ko,
                           abstract_ko := some (row_translation o a).abstract_ko,
                           summary_ko := some (row_translation o a).summary_ko } := by
  simp only [translate_step, row_translation]
  exact update_translation_cases acc a.id _ _ _ i

/-- Helper: the translation step preserves each slot's id. -/
theorem translate_step_id (o : LMOracle) (acc : List ArticleRow)
    (a : ArticleRow) (i : Nat) :
    ((translate_step o acc a)[i]?).map (·.id) = (acc[i]?).map (·.id) := by
  rcases translate_step_cases o acc a i with h | ⟨r₀, h₀, _, h⟩
  · rw [h]
  · rw [h, h₀]; rfl

/-- Helper: the write-back loop skips any slot whose id matches no
processed article. -/
theorem translate_fold_untouched (o : LMOracle) :
    ∀ (sel acc : List ArticleRow) (i : Nat),
      (∀ b ∈ sel, (acc[i]?).map (·.id) ≠ some b.id) →
      (translate_fold o sel acc)[i]? = acc[i]? := by
  intro sel
  induction sel with
  | nil => intro acc i _; rfl
  | cons b rest ih =>
    intro acc i hno
    have hstep : (translate_step o acc b)[i]? = acc[i]? := by
      rcases translate_step_cases o acc b i with h | ⟨r₀, h₀, hid, _⟩
      · exact h
      · exact absurd (by rw [h₀]; simp [hid]) (hno b (List.mem_cons_self b rest))
    have hrest : (translate_fold o rest (translate_step o acc b))[i]?
        = (translate_step o acc b)[i]? := by
      refine ih (translate_step o acc b) i ?_
      intro c hc
      rw [hstep]
      exact hno c (List.mem_cons_of_mem b hc)
    calc (translate_fold o (b :: rest) acc)[i]?
        = (translate_fold o rest (translate_step o acc b))[i]? := by
          simp [translate_fold]
      _ = acc[i]? := by rw [hrest, hstep]

/-- Helper: a slot whose translated fields are already filled keeps some
filled value through the write-back loop, provided every processed
article's translation result carries non-empty fields. -/
theorem translate_fold_filled_persists (o : LMOracle) :
    ∀ (sel acc : List ArticleRow) (i : Nat) (r : ArticleRow),
      (∀ b ∈ sel, (row_translation o b).abstract_ko ≠ "" ∧
        (row_translation o b).summary_ko ≠ "") →
      acc[i]? = some r → translation_filled r = true →
      ∃ r', (translate_fold o sel acc)[i]? = some r' ∧
        translation_filled r' = true := by
  intro sel
  induction sel with
  | nil => intro acc i r _ hacc hfill; exact ⟨r, hacc, hfill⟩
  | cons b rest ih =>
    intro acc i r hgood hacc hfill
    have hfold : translate_fold o (b :: rest) acc
        = translate_fold o rest (translate_step o acc b) := by
      simp [translate_fold]
    rcases translate_step_cases o acc b i with h | ⟨r₀, h₀, _, h⟩
    · rw [hfold]
      exact ih (translate_step o acc b) i r
        (fun c hc => hgood c (List.mem_cons_of_mem b hc)) (h.trans hacc) hfill
    · rw [hfold]
      refine ih (translate_step o acc b) i _
        (fun c hc => hgood c (List.mem_cons_of_mem b hc)) h ?_
      have hb := hgood b (List.mem_cons_self b rest)
      simp [translation_filled, truthy_str,
        beq_eq_false_iff_ne.mpr hb.1, beq_eq_false_iff_ne.mpr hb.2]

/-- Helper: filled translated fields falsify the gate's selection
predicate. -/
theorem needs_translation_false_of_filled (priorities : List String)
    (r : ArticleRow) (h : translation_filled r = true) :
    needs_translation priorities r = false := by
  unfold translation_filled truthy_str at h
  cases hab : r.abstract_ko with
  | none => rw [hab] at h; simp at h
  | some v =>
    cases hsu : r.summary_ko with
    | none => rw [hab, hsu] at h; simp at h
    | some w =>
      rw [hab, hsu] at h
      simp only [Bool.and_eq_true, Bool.not_eq_true'] at h
      unfold needs_translation
      rw [hab, hsu]
      simp [h.1, h.2]

/-- Helper: the unique selected article with a given id writes its
translation result into every slot carrying that id, and nothing
overwrites it afterwards. -/
theorem translate_fold_written (o : LMOracle) :
    ∀ (sel acc : List ArticleRow) (a : ArticleRow) (i : Nat),
      a ∈ sel → (sel.map (·.id)).Nodup →
      (acc[i]?).map (·.id) = some a.id →
      ∃ r₀, acc[i]? = some r₀ ∧
        (translate_fold o sel acc)[i]?
          = some { r₀ with title_ko := some (row_translation o a).title_ko,
                           abstract_ko := some (row_translation o a).abstract_ko,
                           summary_ko := some (row_translation o a).summary_ko } := by
  intro sel
  induction sel with
  | nil => intro acc a i hmem; cases hmem
  | cons b rest ih =>
    intro acc a i hmem hnd hid
    have hfold : translate_fold o (b :: rest) acc
        = translate_fold o rest (translate_step o acc b) := by
      simp [translate_fold]
    obtain ⟨r₀, hr₀⟩ : ∃ r₀, acc[i]? = some r₀ := by
      cases hacc : acc[i]? with
      | none => rw [hacc] at hid; cases hid
      | some r₀ => exact ⟨r₀, rfl⟩
    have hr₀id : r₀.id = a.id := by
      rw [hr₀] at hid
      exact Option.some_injective _ hid
    by_cases hba : b = a
    · subst hba
      have hwrite : (translate_step o acc b)[i]?
          = some { r₀ with title_ko := some (row_translation o b).title_ko,
                           abstract_ko := some (row_translation o b).abstract_ko,
                           summary_ko := some (row_translation o b).summary_ko } := by
        simp only [translate_step, row_translation, update_article_translation]
        rw [List.getElem?_map, hr₀]
        simp [hr₀id]
      refine ⟨r₀, hr₀, ?_⟩
      rw [hfold]
      have hrest : (translate_fold o rest (translate_step o acc b))[i]?
          = (translate_step o acc b)[i]? := by
        refine translate_fold_untouched o rest (translate_step o acc b) i ?_
        intro c hc hcontra
        rw [hwrite] at hcontra
        have hcis : c.id = r₀.id := by
          have := Option.some_injective _ hcontra
          simpa using this.symm
        have hnd2 : b.id ∉ rest.map (·.id) ∧ (rest.map (·.id)).Nodup := by
          rw [List.map_cons, List.nodup_cons] at hnd
          exact hnd
        have hcb : c.id = b.id := by rw [hcis, hr₀id]
        exact hnd2.1 (hcb ▸ List.mem_map.mpr ⟨c, hc, rfl⟩)
      rw [hrest, hwrite]
    · have hamem : a ∈ rest := by
        rcases List.mem_cons.mp hmem with h | h
        · exact absurd h.symm hba
        · exact h
      have hnd2 : b.id ∉ rest.map (·.id) ∧ (rest.map (·.id)).Nodup := by
        rw [List.map_cons, List.nodup_cons] at hnd
        exact hnd
      have hbid : b.id ≠ a.id := by
        intro hcontra
        exact hnd2.1 (hcontra ▸ List.mem_map.mpr ⟨a, hamem, rfl⟩)
      have hstep : (translate_step o acc b)[i]? = acc[i]? := by
        rcases translate_step_cases o acc b i with h | ⟨r₁, h₁, h₁id, _⟩
        · exact h
        · rw [hr₀] at h₁
          have : r₁ = r₀ := (Option.some_injective _ h₁.symm)
          exact absurd (this ▸ h₁id) (by rw [hr₀id]; exact fun hh => hbid hh.symm)
      rw [hfold]
      have := ih (translate_step o acc b) a i hamem hnd2.2 (by rw [hstep]; exact hid)
      obtain ⟨r₁, hr₁, hres⟩ := this
      rw [hstep, hr₀] at hr₁
      exact ⟨r₀, hr₀, by rw [hres, Option.some_injective _ hr₁.symm]⟩

/-- Helper: a selected row carries a non-NULL abstract of length ≥ 50. -/
theorem needs_translation_abstract (priorities : List String) (r : ArticleRow)
    (h : needs_translation priorities r = true) :
    ∃ a0, r.abstract = some a0 ∧ 50 ≤ a0.length := by
  unfold needs_translation at h
  simp only [Bool.and_eq_true] at h
  cases hab : r.abstract with
  | none => rw [hab] at h; simp at h
  | some a0 =>
    rw [hab] at h
    exact ⟨a0, rfl, of_decide_eq_true h.1.2⟩

/-- Helper: the summarizer's result for a row with a usable abstract whose
language-model call raises is the pair of fallback markers. -/
theorem row_translation_of_error (o : LMOracle) (r : ArticleRow) (a0 : String)
    (habs : r.abstract = some a0) (hlen : 50 ≤ a0.length)
    (herr : o.messages_create_full (r.title.getD "") a0 = Except.error ()) :
    (row_translation o r).abstract_ko = "(번역 실패)" ∧
      (row_translation o r).summary_ko = "(요약 실패)" := by
  unfold row_translation translate_and_summarize
  rw [habs]
  have hcond : ¬((some a0).getD "" = "" ∨ ((some a0).getD "" : String).length < 50) := by
    simp only [Option.getD_some]
    rintro (h | h)
    · rw [h] at hlen; exact absurd hlen (by decide)
    · omega
  rw [if_neg hcond]
  simp only [Option.getD_some]
  rw [herr]
  exact ⟨rfl, rfl⟩

/-- C1 amended: when the language-model call raises, the exception is
caught inside `translate_and_summarize`, which returns fallback markers
that the gate then *writes into the store*: the article's `abstract_ko`
and `summary_ko` become `"(번역 실패)"` / `"(요약 실패)"`, so the row is
modified and leaves the gate's retry selection rather than staying
untouched. -/
theorem C1_error_writes_fallback (o : LMOracle) (priorities : List String)
    (articles : List ArticleRow) (r : ArticleRow)
    (hmem : r ∈ articles)
    (hnd : (articles.map (·.id)).Nodup)
    (hsel : needs_translation priorities r = true)
    (herr : o.messages_create_full (r.title.getD "") (r.abstract.getD "")
      = Except.error ()) :
    ∃ r', r' ∈ (translate_priority_articles o priorities articles).1 ∧
      r'.id = r.id ∧ r'.abstract_ko = some "(번역 실패)" ∧
      r'.summary_ko = some "(요약 실패)" ∧
      needs_translation priorities r' = false := by
  obtain ⟨a0, habs, hlen⟩ := needs_translation_abstract priorities r hsel
  have herr' : o.messages_create_full (r.title.getD "") a0 = Except.error () := by
    rw [habs] at herr
    simpa using herr
  have hfields := row_translation_of_error o r a0 habs hlen herr'
  obtain ⟨i, hi⟩ : ∃ i : Nat, articles[i]? = some r := by
    rw [List.mem_iff_getElem?] at hmem; exact hmem
  have hselmem : r ∈ articles.filter (needs_translation priorities) :=
    List.mem_filter.mpr ⟨hmem, hsel⟩
  have hndsel : ((articles.filter (needs_translation priorities)).map (·.id)).Nodup :=
    (List.Sublist.map _ (List.filter_sublist articles)).nodup hnd
  obtain ⟨r₀, hr₀, hres⟩ := translate_fold_written o
    (articles.filter (needs_translation priorities)) articles r i hselmem hndsel
    (by rw [hi]; rfl)
  have hr₀r : r₀ = r := by
    have := hi.symm.trans hr₀
    exact (Option.some_injective _ this).symm
  subst hr₀r
  have hresult : (translate_priority_articles o priorities articles).1
      = translate_fold o (articles.filter (needs_translation priorities)) articles := rfl
  refine ⟨{ r₀ with title_ko := some (row_translation o r₀).title_ko,
                    abstract_ko := some (row_translation o r₀).abstract_ko,
                    summary_ko := some (row_translation o r₀).summary_ko },
    ?_, rfl, ?_, ?_, ?_⟩
  · rw [hresult, List.mem_iff_getElem?]
    exact ⟨i, hres⟩
  · show some (row_translation o r₀).abstract_ko = some "(번역 실패)"
    rw [hfields.1]
  · show some (row_translation o r₀).summary_ko = some "(요약 실패)"
    rw [hfields.2]
  · apply needs_translation_false_of_filled
    show (truthy_str (some (row_translation o r₀).abstract_ko) &&
        truthy_str (some (row_translation o r₀).summary_ko)) = true
    rw [hfields.1, hfields.2]
    decide

/-- Witness for `C1_error_writes_fallback`: a single stored high-priority
article with a usable abstract, processed by a gate whose every call
raises. -/
theorem C1_error_writes_fallback_witness :
    ∃ r', r' ∈ (translate_priority_articles lm_raises ["high"] [pending_row]).1 ∧
      r'.id = pending_row.id ∧ r'.abstract_ko = some "(번역 실패)" ∧
      r'.summary_ko = some "(요약 실패)" ∧
      needs_translation ["high"] r' = false :=
  C1_error_writes_fallback lm_raises ["high"] [pending_row] pending_row
    (by decide) (by decide) (by decide) rfl

/-- C1 counterexample: under a raising oracle the stored article is *not*
left untouched — its `abstract_ko` changes from NULL to the fallback
marker, and it drops out of the retry selection. -/
theorem C1_counterexample :
    ((translate_priority_articles lm_raises ["high"] [pending_row]).1.map
        (·.abstract_ko)) = [some "(번역 실패)"] ∧
      pending_row.abstract_ko = none ∧
      ((translate_priority_articles lm_raises ["high"] [pending_row]).1.filter
          (needs_translation ["high"])) = [] := by decide

/-- Helper: an abstract write at a matching id yields a row whose abstract
is the written (usable) one. -/
theorem update_abstract_write (arts : List ArticleRow) (aid : Nat)
    (ab : String) (ak sk : Option String) (i : Nat) (r₀ : ArticleRow)
    (h₀ : arts[i]? = some r₀) (hid : r₀.id = aid) :
    ∃ r', (update_article_abstract arts aid ab ak sk)[i]? = some r' ∧
      r'.abstract = some ab ∧ r'.id = r₀.id := by
  unfold update_article_abstract
  rw [List.getElem?_map, h₀]
  cases hc : (truthy_str ak && truthy_str sk) <;> simp [hid, hc]

/-- Helper: an abstract write leaves slots with other ids alone. -/
theorem update_abstract_not_id (arts : List ArticleRow) (aid : Nat)
    (ab : String) (ak sk : Option String) (i : Nat)
    (h : (arts[i]?).map (·.id) ≠ some aid) :
    (update_article_abstract arts aid ab ak sk)[i]? = arts[i]? := by
  unfold update_article_abstract
  rw [List.getElem?_map]
  cases h₀ : arts[i]? with
  | none => rfl
  | some r₀ =>
    have hid : r₀.id ≠ aid := by
      intro hcontra
      exact h (by rw [h₀]; simp [hcontra])
    simp [hid]

/-- Helper: an abstract write preserves each slot's id. -/
theorem update_abstract_id (arts : List ArticleRow) (aid : Nat)
    (ab : String) (ak sk : Option String) (i : Nat) :
    ((update_article_abstract arts aid ab ak sk)[i]?).map (·.id)
      = (arts[i]?).map (·.id) := by
  unfold update_article_abstract
  rw [List.getElem?_map]
  cases h₀ : arts[i]? with
  | none => rfl
  | some r₀ =>
    by_cases hid : r₀.id = aid
    · cases hc : (truthy_str ak && truthy_str sk) <;> simp [hid, hc]
    · simp [hid]

/-- Helper: an abstract write never removes a usable abstract. -/
theorem update_abstract_filled_persists (arts : List ArticleRow) (aid : Nat)
    (ab : String) (ak sk : Option String) (i : Nat) (r : ArticleRow)
    (h₀ : arts[i]? = some r) (hf : abstract_filled r = true)
    (hab : 50 ≤ ab.length) :
    ∃ r', (update_article_abstract arts aid ab ak sk)[i]? = some r' ∧
      abstract_filled r' = true := by
  by_cases hid : r.id = aid
  · obtain ⟨r', h', hab', _⟩ := update_abstract_write arts aid ab ak sk i r h₀ hid
    exact ⟨r', h', by simp [abstract_filled, hab', hab]⟩
  · rw [update_abstract_not_id arts aid ab ak sk i (by rw [h₀]; simp [hid])]
    exact ⟨r, h₀, hf⟩

/-- Helper: a priority write preserves each slot's id and abstract. -/
theorem update_priority_id_abstract (arts : List ArticleRow) (aid : Nat)
    (p : String) (kw : Option (List String)) (i : Nat) :
    ((update_article_priority arts aid p kw)[i]?).map (·.id)
        = (arts[i]?).map (·.id) ∧
      ((update_article_priority arts aid p kw)[i]?).map (·.abstract)
        = (arts[i]?).map (·.abstract) := by
  unfold update_article_priority
  rw [List.getElem?_map]
  cases h₀ : arts[i]? with
  | none => exact ⟨rfl, rfl⟩
  | some r₀ =>
    by_cases hid : r₀.id = aid <;> simp [hid]

/-- Helper: the per-article OpenAlex step preserves each slot's id. -/
theorem openalex_step_id (oracleA : String → Option (List (String × List Nat)))
    (oLM : Option LMOracle) (translate : Bool)
    (acc : List ArticleRow × Nat) (a : ArticleRow) (i : Nat) :
    (((openalex_step oracleA oLM translate acc a).1)[i]?).map (·.id)
      = ((acc.1)[i]?).map (·.id) := by
  by_cases h1 : (a.doi.getD "") = ""
  · simp [openalex_step, h1]
  · cases hor : get_work_by_doi oracleA (a.doi.getD "") with
    | none => simp [openalex_step, h1, hor]
    | some w =>
      by_cases h2 : (!(w.abstract == "") && decide (50 ≤ w.abstract.length)) = true
      · simp only [openalex_step, hor, if_neg h1, if_pos h2]
        cases translate with
        | false => exact update_abstract_id _ _ _ _ _ _
        | true =>
          cases oLM with
          | none => exact update_abstract_id _ _ _ _ _ _
          | some o =>
            by_cases h3 : (translate_and_summarize o (a.title.getD "")
                w.abstract).priority ≠ "normal"
            · simp only [if_pos h3]
              rw [(update_priority_id_abstract _ _ _ _ _).1]
              exact update_abstract_id _ _ _ _ _ _
            · simp only [if_neg h3]
              exact update_abstract_id _ _ _ _ _ _
      · simp only [openalex_step, hor, if_neg h1, if_neg h2]

/-- Helper: the per-article OpenAlex step never removes a usable
abstract. -/
theorem openalex_step_filled_persists
    (oracleA : String → Option (List (String × List Nat)))
    (oLM : Option LMOracle) (translate : Bool)
    (acc : List ArticleRow × Nat) (a : ArticleRow) (i : Nat) (r : ArticleRow)
    (h₀ : (acc.1)[i]? = some r) (hf : abstract_filled r = true) :
    ∃ r', ((openalex_step oracleA oLM translate acc a).1)[i]? = some r' ∧
      abstract_filled r' = true := by
  by_cases h1 : (a.doi.getD "") = ""
  · refine ⟨r, ?_, hf⟩
    simp [openalex_step, h1, h₀]
  · cases hor : get_work_by_doi oracleA (a.doi.getD "") with
    | none =>
      refine ⟨r, ?_, hf⟩
      simp [openalex_step, h1, hor, h₀]
    | some w =>
      by_cases h2 : (!(w.abstract == "") && decide (50 ≤ w.abstract.length)) = true
      · have hwlen : 50 ≤ w.abstract.length := by
          have h2' := h2
          simp only [Bool.and_eq_true, decide_eq_true_eq] at h2'
          exact h2'.2
        simp only [openalex_step, hor, if_neg h1, if_pos h2]
        cases translate with
        | false => exact update_abstract_filled_persists _ _ _ _ _ _ r h₀ hf hwlen
        | true =>
          cases oLM with
          | none => exact update_abstract_filled_persists _ _ _ _ _ _ r h₀ hf hwlen
          | some o =>
            by_cases h3 : (translate_and_summarize o (a.title.getD "")
                w.abstract).priority ≠ "normal"
            · simp only [if_pos h3]
              obtain ⟨r', h', hf'⟩ :=
                update_abstract_filled_persists acc.1 a.id w.abstract
                  (some (translate_and_summarize o (a.title.getD "")
                    w.abstract).abstract_ko)
                  (some (translate_and_summarize o (a.title.getD "")
                    w.abstract).summary_ko) i r h₀ hf hwlen
              have hpres := (update_priority_id_abstract
                (update_article_abstract acc.1 a.id w.abstract
                  (some (translate_and_summarize o (a.title.getD "")
                    w.abstract).abstract_ko)
                  (some (translate_and_summarize o (a.title.getD "")
                    w.abstract).summary_ko))
                a.id (translate_and_summarize o (a.title.getD "") w.abstract).priority
                (some (translate_and_summarize o (a.title.getD "")
                  w.abstract).keywords_matched) i).2
              rw [h'] at hpres
              cases hq : (update_article_priority
                  (update_article_abstract acc.1 a.id w.abstract
                    (some (translate_and_summarize o (a.title.getD "")
                      w.abstract).abstract_ko)
                    (some (translate_and_summarize o (a.title.getD "")
                      w.abstract).summary_ko))
                  a.id (translate_and_summarize o (a.title.getD "") w.abstract).priority
                  (some (translate_and_summarize o (a.title.getD "")
                    w.abstract).keywords_matched))[i]? with
              | none => rw [hq] at hpres; cases hpres
              | some r'' =>
                rw [hq] at hpres
                refine ⟨r'', rfl, ?_⟩
                have habs : r''.abstract = r'.abstract := by simpa using hpres
                unfold abstract_filled at hf' ⊢
                rw [habs]
                exact hf'
            · simp only [if_neg h3]
              exact update_abstract_filled_persists _ _ _ _ _ _ r h₀ hf hwlen
      · refine ⟨r, ?_, hf⟩
        simp only [openalex_step, hor, if_neg h1, if_neg h2]
        exact h₀

/-- Helper: a successfully resolved article's step writes a usable
abstract into every slot carrying its id. -/
theorem openalex_step_writes (oracleA : String → Option (List (String × List Nat)))
    (oLM : Option LMOracle) (translate : Bool)
    (acc : List ArticleRow × Nat) (a : ArticleRow) (i : Nat) (w : OpenAlexWork)
    (hdoi : ¬(a.doi.getD "") = "")
    (hor : get_work_by_doi oracleA (a.doi.getD "") = some w)
    (hne : w.abstract ≠ "") (hlen : 50 ≤ w.abstract.length)
    (hid : ((acc.1)[i]?).map (·.id) = some a.id) :
    ∃ r', ((openalex_step oracleA oLM translate acc a).1)[i]? = some r' ∧
      abstract_filled r' = true := by
  obtain ⟨r₀, h₀⟩ : ∃ r₀, (acc.1)[i]? = some r₀ := by
    cases hacc : (acc.1)[i]? with
    | none => rw [hacc] at hid; cases hid
    | some r₀ => exact ⟨r₀, rfl⟩
  have hr₀id : r₀.id = a.id := by
    rw [h₀] at hid
    simpa using hid
  have h2 : (!(w.abstract == "") && decide (50 ≤ w.abstract.length)) = true := by
    simp [beq_eq_false_iff_ne.mpr hne, hlen]
  have hwrite : ∀ ak sk, ∃ r',
      (update_article_abstract acc.1 a.id w.abstract ak sk)[i]? = some r' ∧
        abstract_filled r' = true := by
    intro ak sk
    obtain ⟨r', h', hab', _⟩ :=
      update_abstract_write acc.1 a.id w.abstract ak sk i r₀ h₀ hr₀id
    exact ⟨r', h', by simp [abstract_filled, hab', hlen]⟩
  simp only [openalex_step, hor, if_neg hdoi, if_pos h2]
  cases translate with
  | false => exact hwrite none none
  | true =>
    cases oLM with
    | none => exact hwrite none none
    | some o =>
      by_cases h3 : (translate_and_summarize o (a.title.getD "")
          w.abstract).priority ≠ "normal"
      · simp only [if_pos h3]
        obtain ⟨r', h', hf'⟩ := hwrite
          (some (translate_and_summarize o (a.title.getD "") w.abstract).abstract_ko)
          (some (translate_and_summarize o (a.title.getD "") w.abstract).summary_ko)
        have hpres := (update_priority_id_abstract
          (update_article_abstract acc.1 a.id w.abstract
            (some (translate_and_summarize o (a.title.getD "") w.abstract).abstract_ko)
            (some (translate_and_summarize o (a.title.getD "") w.abstract).summary_ko))
          a.id (translate_and_summarize o (a.title.getD "") w.abstract).priority
          (some (translate_and_summarize o (a.title.getD "")
            w.abstract).keywords_matched) i).2
        rw [h'] at hpres
        cases hq : (update_article_priority
            (update_article_abstract acc.1 a.id w.abstract
              (some (translate_and_summarize o (a.title.getD "") w.abstract).abstract_ko)
              (some (translate_and_summarize o (a.title.getD "") w.abstract).summary_ko))
            a.id (translate_and_summarize o (a.title.getD "") w.abstract).priority
            (some (translate_and_summarize o (a.title.getD "")
              w.abstract).keywords_matched))[i]? with
        | none => rw [hq] at hpres; cases hpres
        | some r'' =>
          rw [hq] at hpres
          refine ⟨r'', rfl, ?_⟩
          have habs : r''.abstract = r'.abstract := by simpa using hpres
          unfold abstract_filled at hf' ⊢
          rw [habs]
          exact hf'
      · simp only [if_neg h3]
        exact hwrite
          (some (translate_and_summarize o (a.title.getD "") w.abstract).abstract_ko)
          (some (translate_and_summarize o (a.title.getD "") w.abstract).summary_ko)

/-- Helper: the OpenAlex loop preserves each slot's id. -/
theorem openalex_fold_id (oracleA : String → Option (List (String × List Nat)))
    (oLM : Option LMOracle) (translate : Bool) :
    ∀ (cand : List ArticleRow) (acc : List ArticleRow × Nat) (i : Nat),
      (((cand.foldl (openalex_step oracleA oLM translate) acc).1)[i]?).map (·.id)
        = ((acc.1)[i]?).map (·.id) := by
  intro cand
  induction cand with
  | nil => intro acc i; rfl
  | cons b rest ih =>
    intro acc i
    rw [List.foldl_cons, ih (openalex_step oracleA oLM translate acc b) i,
      openalex_step_id]

/-- Helper: the OpenAlex loop never removes a usable abstract. -/
theorem openalex_fold_filled_persists
    (oracleA : String → Option (List (String × List Nat)))
    (oLM : Option LMOracle) (translate : Bool) :
    ∀ (cand : List ArticleRow) (acc : List ArticleRow × Nat) (i : Nat)
      (r : ArticleRow),
      (acc.1)[i]? = some r → abstract_filled r = true →
      ∃ r', ((cand.foldl (openalex_step oracleA oLM translate) acc).1)[i]?
          = some r' ∧ abstract_filled r' = true := by
  intro cand
  induction cand with
  | nil => intro acc i r h₀ hf; exact ⟨r, h₀, hf⟩
  | cons b rest ih =>
    intro acc i r h₀ hf
    obtain ⟨r', h', hf'⟩ := openalex_step_filled_persists oracleA oLM translate
      acc b i r h₀ hf
    rw [List.foldl_cons]
    exact ih (openalex_step oracleA oLM translate acc b) i r' h' hf'

/-- Helper: any processed article whose DOI resolves to a usable abstract
ends the OpenAlex loop with a usable abstract in every slot carrying its
id. -/
theorem openalex_fold_writes (oracleA : String → Option (List (String × List Nat)))
    (oLM : Option LMOracle) (translate : Bool) :
    ∀ (cand : List ArticleRow) (acc : List ArticleRow × Nat) (a : ArticleRow)
      (i : Nat) (w : OpenAlexWork),
      a ∈ cand → ¬(a.doi.getD "") = "" →
      get_work_by_doi oracleA (a.doi.getD "") = some w →
      w.abstract ≠ "" → 50 ≤ w.abstract.length →
      ((acc.1)[i]?).map (·.id) = some a.id →
      ∃ r', ((cand.foldl (openalex_step oracleA oLM translate) acc).1)[i]?
          = some r' ∧ abstract_filled r' = true := by
  intro cand
  induction cand with
  | nil => intro acc a i w hmem; cases hmem
  | cons b rest ih =>
    intro acc a i w hmem hdoi hor hne hlen hid
    rw [List.foldl_cons]
    by_cases hba : b = a
    · subst hba
      obtain ⟨r', h', hf'⟩ := openalex_step_writes oracleA oLM translate acc b i w
        hdoi hor hne hlen hid
      exact openalex_fold_filled_persists oracleA oLM translate rest
        (openalex_step oracleA oLM translate acc b) i r' h' hf'
    · have hamem : a ∈ rest := by
        rcases List.mem_cons.mp hmem with h | h
        · exact absurd h.symm hba
        · exact h
      exact ih (openalex_step oracleA oLM translate acc b) a i w hamem hdoi hor
        hne hlen (by rw [openalex_step_id]; exact hid)

/-- Helper: a row in the enrichment candidate list is a stored row with a
truthy DOI. -/
theorem mem_candidates (journals : List JournalRow) (articles : List ArticleRow)
    (limit : Nat) (r : ArticleRow)
    (h : r ∈ get_articles_without_abstract journals articles limit) :
    r ∈ articles ∧ ¬(r.doi.getD "") = "" := by
  unfold get_articles_without_abstract at h
  have hmem := List.mem_reverse.mp (List.mem_of_mem_take h)
  have hfil := List.mem_filter.mp hmem
  refine ⟨hfil.1, ?_⟩
  have hdoi : truthy_str r.doi = true := by
    have := hfil.2
    simp only [Bool.and_eq_true] at this
    exact this.1.2
  unfold truthy_str at hdoi
  cases hd : r.doi with
  | none => rw [hd] at hdoi; cases hdoi
  | some v =>
    rw [hd] at hdoi
    simp only [Bool.not_eq_true'] at hdoi
    simp [Option.getD_some, hd]
    exact beq_eq_false_iff_ne.mp hdoi

/-- Helper: a usable abstract falsifies Semantic Scholar's candidate
predicate. -/
theorem ss_pred_false_of_filled (r : ArticleRow)
    (hf : abstract_filled r = true) :
    ((match r.abstract with
      | none => true
      | some a => a == "" || decide (a.length < 50)) &&
      truthy_str r.doi) = false := by
  unfold abstract_filled at hf
  cases hab : r.abstract with
  | none => rw [hab] at hf; cases hf
  | some a =>
    rw [hab] at hf
    have hlen : 50 ≤ a.length := of_decide_eq_true hf
    have hne : ¬(a = "") := by
      intro hcontra
      rw [hcontra] at hlen
      exact absurd hlen (by decide)
    simp [beq_eq_false_iff_ne.mpr hne, Nat.not_lt.mpr hlen]

/-- C7: if provider A (OpenAlex) resolves a candidate article's DOI to a
usable abstract (length ≥ 50), the Semantic Scholar stage never queries
provider B for that article: its id is absent from the list of ids the
provider-B loop issues calls for, because that stage selects only rows
whose stored abstract is still NULL, empty or shorter than 50. -/
theorem C7_provider_A_shortcircuits
    (oracleA : String → Option (List (String × List Nat)))
    (oLM : Option LMOracle) (translate : Bool)
    (journals : List JournalRow) (articles : List ArticleRow)
    (limitA limitB : Nat) (r : ArticleRow) (w : OpenAlexWork)
    (hmem : r ∈ get_articles_without_abstract journals articles limitA)
    (hres : get_work_by_doi oracleA (r.doi.getD "") = some w)
    (hne : w.abstract ≠ "") (hlen : 50 ≤ w.abstract.length) :
    r.id ∉ ss_queried_ids
      (fetch_missing_abstracts oracleA oLM translate journals articles limitA).1
      limitB := by
  obtain ⟨hmemart, hdoi⟩ := mem_candidates journals articles limitA r hmem
  intro hin
  unfold ss_queried_ids at hin
  obtain ⟨q, hq, hqid⟩ := List.mem_map.mp hin
  have hqcand : q ∈ ss_candidates
      (fetch_missing_abstracts oracleA oLM translate journals articles limitA).1
      limitB := (List.mem_filter.mp hq).1
  have hqpred := List.mem_filter.mp
    (List.mem_of_mem_take (by exact hqcand))
  obtain ⟨j, hj⟩ : ∃ j : Nat,
      ((fetch_missing_abstracts oracleA oLM translate journals articles limitA).1)[j]?
        = some q := by
    rw [List.mem_iff_getElem?] at hqpred
    exact hqpred.1
  have hjid : (articles[j]?).map (·.id) = some r.id := by
    have := openalex_fold_id oracleA oLM translate
      (get_articles_without_abstract journals articles limitA) (articles, 0) j
    unfold fetch_missing_abstracts at hj
    rw [hj] at this
    rw [← this]
    simp [hqid]
  obtain ⟨r', hr', hf'⟩ := openalex_fold_writes oracleA oLM translate
    (get_articles_without_abstract journals articles limitA) (articles, 0) r j w
    hmem hdoi hres hne hlen hjid
  have hq_eq : q = r' := by
    unfold fetch_missing_abstracts at hj
    rw [hj] at hr'
    exact Option.some_injective _ hr'
  have := ss_pred_false_of_filled q (hq_eq ▸ hf')
  rw [hqpred.2] at this
  cases this

/-- Witness for `C7_provider_A_shortcircuits`: one stored DOI-bearing
article without an abstract, against an OpenAlex oracle resolving every
DOI to a 50-character abstract. -/
theorem C7_provider_A_shortcircuits_witness :
    doi_row.id ∉ ss_queried_ids
      (fetch_missing_abstracts oa_always_hits none false [journal_one] [doi_row] 5).1
      50 :=
  C7_provider_A_shortcircuits oa_always_hits none false [journal_one] [doi_row] 5 50
    doi_row { abstract := long_word } (by decide) (by decide) (by decide) (by decide)

/-- Helper: a translation write preserves the table's hash column. -/
theorem update_translation_map_hash (arts : List ArticleRow) (aid : Nat)
    (t a s : String) :
    (update_article_translation arts aid t a s).map (·.hash)
      = arts.map (·.hash) := by
  unfold update_article_translation
  rw [List.map_map]
  apply List.map_congr_left
  intro r _
  by_cases h : r.id = aid <;> simp [h]

/-- Helper: an abstract write preserves the table's hash column. -/
theorem update_abstract_map_hash (arts : List ArticleRow) (aid : Nat)
    (ab : String) (ak sk : Option String) :
    (update_article_abstract arts aid ab ak sk).map (·.hash)
      = arts.map (·.hash) := by
  unfold update_article_abstract
  rw [List.map_map]
  apply List.map_congr_left
  intro r _
  by_cases h : r.id = aid
  · cases hc : (truthy_str ak && truthy_str sk) <;> simp [h, hc]
  · simp [h]

/-- Helper: a priority write preserves the table's hash column. -/
theorem update_priority_map_hash (arts : List ArticleRow) (aid : Nat)
    (p : String) (kw : Option (List String)) :
    (update_article_priority arts aid p kw).map (·.hash) = arts.map (·.hash) := by
  unfold update_article_priority
  rw [List.map_map]
  apply List.map_congr_left
  intro r _
  by_cases h : r.id = aid <;> simp [h]

/-- Helper: the per-article OpenAlex step preserves the hash column. -/
theorem openalex_step_map_hash (oracleA : String → Option (List (String × List Nat)))
    (oLM : Option LMOracle) (translate : Bool)
    (acc : List ArticleRow × Nat) (a : ArticleRow) :
    ((openalex_step oracleA oLM translate acc a).1).map (·.hash)
      = (acc.1).map (·.hash) := by
  by_cases h1 : (a.doi.getD "") = ""
  · simp [openalex_step, h1]
  · cases hor : get_work_by_doi oracleA (a.doi.getD "") with
    | none => simp [openalex_step, h1, hor]
    | some w =>
      by_cases h2 : (!(w.abstract == "") && decide (50 ≤ w.abstract.length)) = true
      · simp only [openalex_step, hor, if_neg h1, if_pos h2]
        cases translate with
        | false => exact update_abstract_map_hash _ _ _ _ _
        | true =>
          cases oLM with
          | none => exact update_abstract_map_hash _ _ _ _ _
          | some o =>
            by_cases h3 : (translate_and_summarize o (a.title.getD "")
                w.abstract).priority ≠ "normal"
            · simp only [if_pos h3]
              rw [update_priority_map_hash, update_abstract_map_hash]
            · simp only [if_neg h3]
              exact update_abstract_map_hash _ _ _ _ _
      · simp only [openalex_step, hor, if_neg h1, if_neg h2]

/-- Helper: the OpenAlex loop preserves the hash column. -/
theorem openalex_fold_map_hash (oracleA : String → Option (List (String × List Nat)))
    (oLM : Option LMOracle) (translate : Bool) :
    ∀ (cand : List ArticleRow) (acc : List ArticleRow × Nat),
      ((cand.foldl (openalex_step oracleA oLM translate) acc).1).map (·.hash)
        = (acc.1).map (·.hash) := by
  intro cand
  induction cand with
  | nil => intro acc; rfl
  | cons b rest ih =>
    intro acc
    rw [List.foldl_cons, ih, openalex_step_map_hash]

/-- Helper: the per-article Semantic Scholar step preserves the hash
column. -/
theorem semantic_scholar_step_map_hash (oracleB : String → Option String)
    (acc : List ArticleRow × Nat) (a : ArticleRow) :
    ((semantic_scholar_step oracleB acc a).1).map (·.hash)
      = (acc.1).map (·.hash) := by
  by_cases h1 : (a.doi.getD "") = ""
  · simp [semantic_scholar_step, h1]
  · cases hor : oracleB (normalize_doi (a.doi.getD "")) with
    | none => simp [semantic_scholar_step, h1, hor]
    | some ab =>
      by_cases h2 : (!(ab == "") && decide (50 ≤ ab.length)) = true
      · simp only [semantic_scholar_step, hor, if_neg h1, if_pos h2]
        exact update_abstract_map_hash _ _ _ _ _
      · simp only [semantic_scholar_step, hor, if_neg h1, if_neg h2]

/-- Helper: the Semantic Scholar loop preserves the hash column. -/
theorem semantic_scholar_fold_map_hash (oracleB : String → Option String) :
    ∀ (cand : List ArticleRow) (acc : List ArticleRow × Nat),
      ((cand.foldl (semantic_scholar_step oracleB) acc).1).map (·.hash)
        = (acc.1).map (·.hash) := by
  intro cand
  induction cand with
  | nil => intro acc; rfl
  | cons b rest ih =>
    intro acc
    rw [List.foldl_cons, ih, semantic_scholar_step_map_hash]

/-- Helper: the recheck step preserves the hash column. -/
theorem recheck_step_map_hash (acc : List ArticleRow × Nat) (a : ArticleRow) :
    ((recheck_step acc a).1).map (·.hash) = (acc.1).map (·.hash) := by
  unfold recheck_step
  by_cases h : (check_priority (a.title.getD "") (a.abstract.getD "")).2.isEmpty
  · simp [h]
  · simp only [if_neg h]
    exact update_priority_map_hash _ _ _ _

/-- Helper: the recheck loop preserves the hash column. -/
theorem recheck_fold_map_hash :
    ∀ (cand : List ArticleRow) (acc : List ArticleRow × Nat),
      ((cand.foldl recheck_step acc).1).map (·.hash) = (acc.1).map (·.hash) := by
  intro cand
  induction cand with
  | nil => intro acc; rfl
  | cons b rest ih =>
    intro acc
    rw [List.foldl_cons, ih, recheck_step_map_hash]

/-- Helper: the translation write-back loop preserves the hash column. -/
theorem translate_fold_map_hash (o : LMOracle) :
    ∀ (sel acc : List ArticleRow),
      (translate_fold o sel acc).map (·.hash) = acc.map (·.hash) := by
  intro sel
  induction sel with
  | nil => intro acc; rfl
  | cons b rest ih =>
    intro acc
    have hstep : (translate_step o acc b).map (·.hash) = acc.map (·.hash) := by
      simp only [translate_step]
      exact update_translation_map_hash _ _ _ _ _
    calc (translate_fold o (b :: rest) acc).map (·.hash)
        = (translate_fold o rest (translate_step o acc b)).map (·.hash) := by
          simp [translate_fold]
      _ = acc.map (·.hash) := by rw [ih, hstep]

/-- Helper: the enrichment stage preserves the hash column. -/
theorem enrich_stage_map_hash (o : PipelineOracles) (journals : List JournalRow)
    (rows : List ArticleRow) :
    (enrich_stage o journals rows).map (·.hash) = rows.map (·.hash) := by
  unfold enrich_stage
  by_cases h : 0 < can_fetch_count rows
  · rw [if_pos h]
    unfold fetch_abstracts_from_semantic_scholar fetch_missing_abstracts
    rw [semantic_scholar_fold_map_hash, openalex_fold_map_hash]
  · rw [if_neg h]

/-- Helper: `article_exists` is membership in the hash column. -/
theorem article_exists_iff (articles : List ArticleRow) (h : String) :
    article_exists articles h = true ↔ h ∈ articles.map (·.hash) := by
  unfold article_exists
  rw [List.any_eq_true]
  constructor
  · rintro ⟨r, hr, hbeq⟩
    exact List.mem_map.mpr ⟨r, hr, eq_of_beq hbeq⟩
  · intro hmem
    obtain ⟨r, hr, hrh⟩ := List.mem_map.mp hmem
    exact ⟨r, hr, beq_iff_eq.mpr hrh⟩

/-- Helper: the persist loop only ever adds hashes. -/
theorem persist_fold_hash_mono :
    ∀ (batch : List ArticleInput) (acc : List JournalRow × List ArticleRow × Nat)
      (h : String), h ∈ (acc.2.1).map (·.hash) →
      h ∈ ((batch.foldl persist_step acc).2.1).map (·.hash) := by
  intro batch
  induction batch with
  | nil => intro acc h hmem; exact hmem
  | cons a rest ih =>
    intro acc h hmem
    rw [List.foldl_cons]
    refine ih (persist_step acc a) h ?_
    unfold persist_step insert_article
    by_cases hex : article_exists acc.2.1
        (generate_hash (({ a with journal_id := some (get_or_create_journal acc.1
          (a.journal_name.getD "Unknown") "" a.category).1 } : ArticleInput).title.getD "")
          (({ a with journal_id := some (get_or_create_journal acc.1
            (a.journal_name.getD "Unknown") "" a.category).1 } : ArticleInput).url.getD ""))
    · simp only [hex, if_pos]
      exact hmem
    · simp only [Bool.not_eq_true] at hex
      simp only [hex, Bool.false_eq_true, if_false]
      rw [List.map_append]
      exact List.mem_append_left _ hmem

/-- Helper: after the persist stage, every batch article's identity hash is
in the table. -/
theorem persist_fold_hash_mem :
    ∀ (batch : List ArticleInput) (acc : List JournalRow × List ArticleRow × Nat)
      (a : ArticleInput), a ∈ batch →
      generate_hash (a.title.getD "") (a.url.getD "")
        ∈ ((batch.foldl persist_step acc).2.1).map (·.hash) := by
  intro batch
  induction batch with
  | nil => intro acc a hmem; cases hmem
  | cons b rest ih =>
    intro acc a hmem
    rw [List.foldl_cons]
    rcases List.mem_cons.mp hmem with rfl | hrest
    · -- the head article's hash is present right after its own step
      refine persist_fold_hash_mono rest (persist_step acc a) _ ?_
      unfold persist_step insert_article
      by_cases hex : article_exists acc.2.1
          (generate_hash (a.title.getD "") (a.url.getD ""))
      · simp only [hex, if_pos]
        exact (article_exists_iff _ _).mp hex
      · simp only [Bool.not_eq_true] at hex
        simp only [hex, Bool.false_eq_true, if_false]
        rw [List.map_append]
        refine List.mem_append_right _ ?_
        simp
    · exact ih (persist_step acc b) a hrest

/-- Helper: when every batch hash is already stored, the persist stage
inserts nothing: the article table and the new-row count are unchanged. -/
theorem persist_fold_noop :
    ∀ (batch : List ArticleInput) (js : List JournalRow)
      (rows : List ArticleRow) (n : Nat),
      (∀ a ∈ batch,
        generate_hash (a.title.getD "") (a.url.getD "") ∈ rows.map (·.hash)) →
      (batch.foldl persist_step (js, rows, n)).2.1 = rows ∧
        (batch.foldl persist_step (js, rows, n)).2.2 = n := by
  intro batch
  induction batch with
  | nil => intro js rows n _; exact ⟨rfl, rfl⟩
  | cons a rest ih =>
    intro js rows n hmem
    rw [List.foldl_cons]
    have hex : article_exists rows
        (generate_hash (a.title.getD "") (a.url.getD "")) = true :=
      (article_exists_iff _ _).mpr (hmem a (List.mem_cons_self a rest))
    have hstep : persist_step (js, rows, n) a
        = ((get_or_create_journal js (a.journal_name.getD "Unknown") "" a.category).2,
           rows, n) := by
      unfold persist_step insert_article
      simp only [hex, if_pos]
      rfl
    rw [hstep]
    exact ih _ rows n (fun b hb => hmem b (List.mem_cons_of_mem a hb))

/-- Helper: the translation step overwrites every slot carrying the
processed article's id with the summarizer's result. -/
theorem translate_step_write (o : LMOracle) (acc : List ArticleRow)
    (a : ArticleRow) (i : Nat) (r₀ : ArticleRow)
    (h₀ : acc[i]? = some r₀) (hid : r₀.id = a.id) :
    (translate_step o acc a)[i]?
      = some { r₀ with title_ko := some (row_translation o a).title_ko,
                       abstract_ko := some (row_translation o a).abstract_ko,
                       summary_ko := some (row_translation o a).summary_ko } := by
  simp only [translate_step, row_translation, update_article_translation]
  rw [List.getElem?_map, h₀]
  simp [hid]

/-- Helper: any selected article leaves the write-back loop with filled
translated fields in every slot carrying its id, provided every selected
article's translation result has non-empty fields. -/
theorem translate_fold_selected_filled (o : LMOracle) :
    ∀ (sel acc : List ArticleRow) (a : ArticleRow) (i : Nat),
      a ∈ sel →
      (∀ b ∈ sel, (row_translation o b).abstract_ko ≠ "" ∧
        (row_translation o b).summary_ko ≠ "") →
      (acc[i]?).map (·.id) = some a.id →
      ∃ r', (translate_fold o sel acc)[i]? = some r' ∧
        translation_filled r' = true := by
  intro sel
  induction sel with
  | nil => intro acc a i hmem; cases hmem
  | cons b rest ih =>
    intro acc a i hmem hgood hid
    have hfold : translate_fold o (b :: rest) acc
        = translate_fold o rest (translate_step o acc b) := by
      simp [translate_fold]
    by_cases hba : b = a
    · subst hba
      obtain ⟨r₀, h₀⟩ : ∃ r₀, acc[i]? = some r₀ := by
        cases hacc : acc[i]? with
        | none => rw [hacc] at hid; cases hid
        | some r₀ => exact ⟨r₀, rfl⟩
      have hr₀id : r₀.id = b.id := by
        rw [h₀] at hid
        simpa using hid
      have hw := translate_step_write o acc b i r₀ h₀ hr₀id
      have hg := hgood b (List.mem_cons_self b rest)
      have hfilled : translation_filled
          { r₀ with title_ko := some (row_translation o b).title_ko,
                    abstract_ko := some (row_translation o b).abstract_ko,
                    summary_ko := some (row_translation o b).summary_ko } = true := by
        show (truthy_str (some (row_translation o b).abstract_ko) &&
            truthy_str (some (row_translation o b).summary_ko)) = true
        simp [truthy_str, beq_eq_false_iff_ne.mpr hg.1, beq_eq_false_iff_ne.mpr hg.2]
      rw [hfold]
      exact translate_fold_filled_persists o rest (translate_step o acc b) i _
        (fun c hc => hgood c (List.mem_cons_of_mem b hc)) hw hfilled
    · have hamem : a ∈ rest := by
        rcases List.mem_cons.mp hmem with h | h
        · exact absurd h.symm hba
        · exact h
      rw [hfold]
      exact ih (translate_step o acc b) a i hamem
        (fun c hc => hgood c (List.mem_cons_of_mem b hc))
        (by rw [translate_step_id]; exact hid)

/-- Helper: after the write-back loop each slot is either untouched or
holds filled translated fields, provided every selected article's
translation result has non-empty fields. -/
theorem translate_fold_cases (o : LMOracle) :
    ∀ (sel acc : List ArticleRow) (i : Nat),
      (∀ b ∈ sel, (row_translation o b).abstract_ko ≠ "" ∧
        (row_translation o b).summary_ko ≠ "") →
      (translate_fold o sel acc)[i]? = acc[i]? ∨
        ∃ r', (translate_fold o sel acc)[i]? = some r' ∧
          translation_filled r' = true := by
  intro sel
  induction sel with
  | nil => intro acc i _; left; rfl
  | cons b rest ih =>
    intro acc i hgood
    have hfold : translate_fold o (b :: rest) acc
        = translate_fold o rest (translate_step o acc b) := by
      simp [translate_fold]
    rcases translate_step_cases o acc b i with h | ⟨r₀, h₀, hid, h⟩
    · rcases ih (translate_step o acc b) i
          (fun c hc => hgood c (List.mem_cons_of_mem b hc)) with heq | hfil
      · left; rw [hfold, heq, h]
      · right; rw [hfold]; exact hfil
    · right
      have hg := hgood b (List.mem_cons_self b rest)
      have hfilled : translation_filled
          { r₀ with title_ko := some (row_translation o b).title_ko,
                    abstract_ko := some (row_translation o b).abstract_ko,
                    summary_ko := some (row_translation o b).summary_ko } = true := by
        show (truthy_str (some (row_translation o b).abstract_ko) &&
            truthy_str (some (row_translation o b).summary_ko)) = true
        simp [truthy_str, beq_eq_false_iff_ne.mpr hg.1, beq_eq_false_iff_ne.mpr hg.2]
      rw [hfold]
      exact translate_fold_filled_persists o rest (translate_step o acc b) i _
        (fun c hc => hgood c (List.mem_cons_of_mem b hc)) h hfilled

/-- Helper: after one pass of the translation gate no stored row matches
the gate's selection any more, provided every selected article's
translation result has non-empty fields. -/
theorem translate_gate_empties (o : LMOracle) (priorities : List String)
    (articles : List ArticleRow)
    (hgood : ∀ b ∈ articles.filter (needs_translation priorities),
      (row_translation o b).abstract_ko ≠ "" ∧
        (row_translation o b).summary_ko ≠ "") :
    (translate_priority_articles o priorities articles).1.filter
      (needs_translation priorities) = [] := by
  rw [List.filter_eq_nil_iff]
  intro r' hr'
  have hres : (translate_priority_articles o priorities articles).1
      = translate_fold o (articles.filter (needs_translation priorities)) articles :=
    rfl
  rw [hres] at hr'
  obtain ⟨i, hi⟩ : ∃ i : Nat,
      (translate_fold o (articles.filter (needs_translation priorities))
        articles)[i]? = some r' := by
    rw [List.mem_iff_getElem?] at hr'
    exact hr'
  intro hpred
  rcases translate_fold_cases o (articles.filter (needs_translation priorities))
      articles i hgood with heq | ⟨r₂, h₂, hf₂⟩
  · have hart : articles[i]? = some r' := heq.symm.trans hi
    have hmem : r' ∈ articles := by
      rw [List.mem_iff_getElem?]
      exact ⟨i, hart⟩
    have hselm : r' ∈ articles.filter (needs_translation priorities) :=
      List.mem_filter.mpr ⟨hmem, hpred⟩
    obtain ⟨r'', h'', hf''⟩ := translate_fold_selected_filled o
      (articles.filter (needs_translation priorities)) articles r' i hselm hgood
      (by rw [hart]; rfl)
    have hrr : r'' = r' := Option.some_injective _ (h''.symm.trans hi)
    rw [needs_translation_false_of_filled priorities r' (hrr ▸ hf'')] at hpred
    cases hpred
  · have hrr : r₂ = r' := Option.some_injective _ (h₂.symm.trans hi)
    rw [needs_translation_false_of_filled priorities r' (hrr ▸ hf₂)] at hpred
    cases hpred

/-- Helper: a selected row's translation result has non-empty fields when
every successful response parses to non-empty sections (a raising call
yields the non-empty fallback markers). -/
theorem row_translation_filled_of_selected (o : LMOracle)
    (priorities : List String) (b : ArticleRow)
    (hwf : ∀ title abstract t, o.messages_create_full title abstract = Except.ok t →
      (parse_response t).abstract_ko ≠ "" ∧ (parse_response t).summary_ko ≠ "")
    (hsel : needs_translation priorities b = true) :
    (row_translation o b).abstract_ko ≠ "" ∧
      (row_translation o b).summary_ko ≠ "" := by
  obtain ⟨a0, habs, hlen⟩ := needs_translation_abstract priorities b hsel
  have hcond : ¬((some a0).getD "" = "" ∨ ((some a0).getD "" : String).length < 50) := by
    simp only [Option.getD_some]
    rintro (h | h)
    · rw [h] at hlen; exact absurd hlen (by decide)
    · omega
  cases hor : o.messages_create_full (b.title.getD "") a0 with
  | ok tx =>
    have hfields := hwf _ _ _ hor
    unfold row_translation translate_and_summarize
    rw [habs, if_neg hcond]
    simp only [Option.getD_some, hor]
    exact hfields
  | error e =>
    unfold row_translation translate_and_summarize
    rw [habs, if_neg hcond]
    simp only [Option.getD_some, hor]
    exact ⟨by decide, by decide⟩

/-- Helper: a step whose article provider A cannot usably resolve is a
no-op. -/
theorem openalex_step_noop (oracleA : String → Option (List (String × List Nat)))
    (oLM : Option LMOracle) (translate : Bool)
    (acc : List ArticleRow × Nat) (a : ArticleRow)
    (h : oa_usable oracleA a = false) :
    openalex_step oracleA oLM translate acc a = acc := by
  by_cases h1 : (a.doi.getD "") = ""
  · simp [openalex_step, h1]
  · cases hor : get_work_by_doi oracleA (a.doi.getD "") with
    | none => simp [openalex_step, h1, hor]
    | some w =>
      have h2 : (!(w.abstract == "") && decide (50 ≤ w.abstract.length)) = false := by
        unfold oa_usable at h
        rw [hor] at h
        exact h
      simp only [openalex_step, hor, if_neg h1]
      rw [if_neg (by rw [h2]; exact Bool.false_ne_true)]

/-- Helper: the OpenAlex loop is a no-op when provider A usably resolves
none of the candidates. -/
theorem openalex_fold_noop (oracleA : String → Option (List (String × List Nat)))
    (oLM : Option LMOracle) (translate : Bool) :
    ∀ (cand : List ArticleRow) (acc : List ArticleRow × Nat),
      (∀ a ∈ cand, oa_usable oracleA a = false) →
      cand.foldl (openalex_step oracleA oLM translate) acc = acc := by
  intro cand
  induction cand with
  | nil => intro acc _; rfl
  | cons b rest ih =>
    intro acc hno
    rw [List.foldl_cons,
      openalex_step_noop oracleA oLM translate acc b (hno b (List.mem_cons_self b rest))]
    exact ih acc (fun c hc => hno c (List.mem_cons_of_mem b hc))

/-- Helper: a step whose article provider B cannot usably resolve is a
no-op. -/
theorem semantic_scholar_step_noop (oracleB : String → Option String)
    (acc : List ArticleRow × Nat) (a : ArticleRow)
    (h : ss_usable oracleB a = false) :
    semantic_scholar_step oracleB acc a = acc := by
  by_cases h1 : (a.doi.getD "") = ""
  · simp [semantic_scholar_step, h1]
  · cases hor : oracleB (normalize_doi (a.doi.getD "")) with
    | none => simp [semantic_scholar_step, h1, hor]
    | some ab =>
      have h2 : (!(ab == "") && decide (50 ≤ ab.length)) = false := by
        unfold ss_usable at h
        rw [hor] at h
        exact h
      simp only [semantic_scholar_step, hor, if_neg h1]
      rw [if_neg (by rw [h2]; exact Bool.false_ne_true)]

/-- Helper: the Semantic Scholar loop is a no-op when provider B usably
resolves none of the candidates. -/
theorem semantic_scholar_fold_noop (oracleB : String → Option String) :
    ∀ (cand : List ArticleRow) (acc : List ArticleRow × Nat),
      (∀ a ∈ cand, ss_usable oracleB a = false) →
      cand.foldl (semantic_scholar_step oracleB) acc = acc := by
  intro cand
  induction cand with
  | nil => intro acc _; rfl
  | cons b rest ih =>
    intro acc hno
    rw [List.foldl_cons,
      semantic_scholar_step_noop oracleB acc b (hno b (List.mem_cons_self b rest))]
    exact ih acc (fun c hc => hno c (List.mem_cons_of_mem b hc))

/-- Helper: the recheck loop is a no-op when no candidate's keyword scan
matches anything. -/
theorem recheck_fold_noop :
    ∀ (cand : List ArticleRow) (acc : List ArticleRow × Nat),
      (∀ a ∈ cand, (check_priority (a.title.getD "") (a.abstract.getD "")).2 = []) →
      cand.foldl recheck_step acc = acc := by
  intro cand
  induction cand with
  | nil => intro acc _; rfl
  | cons b rest ih =>
    intro acc hno
    have hstep : recheck_step acc b = acc := by
      unfold recheck_step
      rw [if_pos (by rw [hno b (List.mem_cons_self b rest)]; rfl)]
    rw [List.foldl_cons, hstep]
    exact ih acc (fun c hc => hno c (List.mem_cons_of_mem b hc))

/-- Helper: an OpenAlex enrichment candidate has a missing abstract. -/
theorem mem_candidates_missing (journals : List JournalRow)
    (articles : List ArticleRow) (limit : Nat) (r : ArticleRow)
    (h : r ∈ get_articles_without_abstract journals articles limit) :
    abstract_missing r = true := by
  unfold get_articles_without_abstract at h
  have hfil := List.mem_filter.mp (List.mem_reverse.mp (List.mem_of_mem_take h))
  have := hfil.2
  simp only [Bool.and_eq_true] at this
  exact this.2

/-- Helper: a Semantic Scholar candidate is a stored row with a truthy DOI
and a missing abstract. -/
theorem mem_ss_candidates (articles : List ArticleRow) (limit : Nat)
    (r : ArticleRow) (h : r ∈ ss_candidates articles limit) :
    r ∈ articles ∧ truthy_str r.doi = true ∧ abstract_missing r = true := by
  unfold ss_candidates at h
  have hfil := List.mem_filter.mp (List.mem_of_mem_take h)
  have hp := hfil.2
  simp only [Bool.and_eq_true] at hp
  refine ⟨hfil.1, hp.2, ?_⟩
  unfold abstract_missing
  cases hab : r.abstract with
  | none => rfl
  | some a =>
    rw [hab] at hp
    have hp1 := hp.1
    simp only [Bool.or_eq_true] at hp1
    rcases hp1 with he | hl
    · have : a = "" := eq_of_beq he
      rw [this]
      decide
    · exact hl

/-- Helper: an OpenAlex enrichment candidate has a truthy DOI. -/
theorem mem_candidates_doi (journals : List JournalRow)
    (articles : List ArticleRow) (limit : Nat) (r : ArticleRow)
    (h : r ∈ get_articles_without_abstract journals articles limit) :
    r ∈ articles ∧ truthy_str r.doi = true := by
  unfold get_articles_without_abstract at h
  have hfil := List.mem_filter.mp (List.mem_reverse.mp (List.mem_of_mem_take h))
  have := hfil.2
  simp only [Bool.and_eq_true] at this
  exact ⟨hfil.1, this.1.2⟩

/-- Helper: an empty collected batch makes the whole run an early-return
no-op. -/
theorem run_once_empty_eq (o : PipelineOracles) (batch : List ArticleInput)
    (js : List JournalRow) (rows : List ArticleRow)
    (hb : batch.isEmpty = true) :
    run_once o batch js rows
      = { journals := js, articles := rows,
          new_count := 0, translate_calls := 0 } := by
  unfold run_once
  rw [if_pos hb]

/-- Helper: unfolding equation for `run_once`'s stored articles on a
non-empty batch. -/
theorem run_once_articles_eq (o : PipelineOracles) (batch : List ArticleInput)
    (js : List JournalRow) (rows : List ArticleRow)
    (hb : batch.isEmpty = false) :
    (run_once o batch js rows).articles
      = (translate_priority_articles o.lm ["high"]
          ((recheck_priorities (enrich_stage o
            (persist_articles (classify_articles batch) js rows).1
            (persist_articles (classify_articles batch) js rows).2.1)).1)).1 := by
  unfold run_once
  rw [if_neg (by rw [hb]; exact Bool.false_ne_true)]

/-- Helper: unfolding equation for `run_once`'s new-row count on a
non-empty batch. -/
theorem run_once_new_count_eq (o : PipelineOracles) (batch : List ArticleInput)
    (js : List JournalRow) (rows : List ArticleRow)
    (hb : batch.isEmpty = false) :
    (run_once o batch js rows).new_count
      = (persist_articles (classify_articles batch) js rows).2.2 := by
  unfold run_once
  rw [if_neg (by rw [hb]; exact Bool.false_ne_true)]

/-- Helper: unfolding equation for `run_once`'s translation-call count on
a non-empty batch. -/
theorem run_once_translate_calls_eq (o : PipelineOracles)
    (batch : List ArticleInput) (js : List JournalRow) (rows : List ArticleRow)
    (hb : batch.isEmpty = false) :
    (run_once o batch js rows).translate_calls
      = (translate_priority_articles o.lm ["high"]
          ((recheck_priorities (enrich_stage o
            (persist_articles (classify_articles batch) js rows).1
            (persist_articles (classify_articles batch) js rows).2.1)).1)).2 := by
  unfold run_once
  rw [if_neg (by rw [hb]; exact Bool.false_ne_true)]

/-- Helper: unfolding equation for the gate's table component. -/
theorem translate_priority_articles_fst (o : LMOracle) (p : List String)
    (arts : List ArticleRow) :
    (translate_priority_articles o p arts).1
      = translate_fold o (arts.filter (needs_translation p)) arts := rfl

/-- Helper: unfolding equation for the gate's call count. -/
theorem translate_priority_articles_snd (o : LMOracle) (p : List String)
    (arts : List ArticleRow) :
    (translate_priority_articles o p arts).2
      = (arts.filter (needs_translation p)).length := rfl

/-- Helper: unfolding equation for the recheck stage's table component. -/
theorem recheck_priorities_fst (arts : List ArticleRow) :
    (recheck_priorities arts).1
      = ((recheck_candidates arts).foldl recheck_step (arts, 0)).1 := rfl

/-- Helper: a second orchestrator run over a store that already holds every
batch hash, already satisfies the gate, and gets nothing new from the
providers, inserts zero rows and issues zero translation calls. -/
theorem second_run_noop (o : PipelineOracles) (batch : List ArticleInput)
    (js₁ : List JournalRow) (s₁ : List ArticleRow)
    (hhash : ∀ a ∈ classify_articles batch,
      generate_hash (a.title.getD "") (a.url.getD "") ∈ s₁.map (·.hash))
    (hempty : s₁.filter (needs_translation ["high"]) = [])
    (hA : ∀ a ∈ s₁, truthy_str a.doi = true → abstract_missing a = true →
      oa_usable o.openalex a = false)
    (hB : ∀ a ∈ s₁, truthy_str a.doi = true → abstract_missing a = true →
      ss_usable o.semantic_scholar a = false)
    (hC : ∀ a ∈ recheck_candidates s₁,
      (check_priority (a.title.getD "") (a.abstract.getD "")).2 = []) :
    (run_once o batch js₁ s₁).new_count = 0 ∧
      (run_once o batch js₁ s₁).translate_calls = 0 := by
  by_cases hb : batch.isEmpty
  case pos =>
    rw [run_once_empty_eq o batch js₁ s₁ hb]
    exact ⟨rfl, rfl⟩
  case neg =>
  have hb' : batch.isEmpty = false := by simpa using hb
  have hpersist := persist_fold_noop (classify_articles batch) js₁ s₁ 0 hhash
  have hrows : (persist_articles (classify_articles batch) js₁ s₁).2.1 = s₁ :=
    hpersist.1
  have henrich : ∀ js₂, enrich_stage o js₂ s₁ = s₁ := by
    intro js₂
    unfold enrich_stage
    by_cases hcf : 0 < can_fetch_count s₁
    · rw [if_pos hcf]
      have hoa : (fetch_missing_abstracts o.openalex none false js₂ s₁
          (can_fetch_count s₁)).1 = s₁ := by
        unfold fetch_missing_abstracts
        rw [openalex_fold_noop o.openalex none false _ (s₁, 0)
          (fun a ha => hA a (mem_candidates_doi js₂ s₁ _ a ha).1
            (mem_candidates_doi js₂ s₁ _ a ha).2
            (mem_candidates_missing js₂ s₁ _ a ha))]
      rw [hoa]
      unfold fetch_abstracts_from_semantic_scholar
      rw [semantic_scholar_fold_noop o.semantic_scholar _ (s₁, 0)
        (fun a ha => hB a (mem_ss_candidates s₁ 50 a ha).1
          (mem_ss_candidates s₁ 50 a ha).2.1 (mem_ss_candidates s₁ 50 a ha).2.2)]
    · rw [if_neg hcf]
  have hrecheck : (recheck_priorities s₁).1 = s₁ := by
    rw [recheck_priorities_fst, recheck_fold_noop (recheck_candidates s₁) (s₁, 0) hC]
  constructor
  · rw [run_once_new_count_eq o batch js₁ s₁ hb']
    exact hpersist.2
  · rw [run_once_translate_calls_eq o batch js₁ s₁ hb', hrows, henrich, hrecheck,
      translate_priority_articles_snd, hempty]
    rfl

/-- C3 amended: a second orchestrator run on the unchanged feed batch is a
write-level no-op — zero net new article rows and zero translation calls —
*provided* (i) every successful language-model response of the first run
parses to non-empty translated-abstract and summary sections (a response
missing a section stores an empty field and the article is re-selected,
refuting the unconditional claim), and (ii) the bibliographic providers
resolve nothing usable for the articles still missing abstracts after the
first run, and the keyword re-scan still matches nothing for the rows the
recheck stage selects (with more than 50 Semantic Scholar candidates, the
stage's fixed LIMIT 50 window can otherwise enrich new rows on the second
run and trigger fresh translations). -/
theorem C3_second_run_is_noop (o : PipelineOracles) (batch : List ArticleInput)
    (journals : List JournalRow) (articles : List ArticleRow)
    (hwf : ∀ title abstract t,
      o.lm.messages_create_full title abstract = Except.ok t →
      (parse_response t).abstract_ko ≠ "" ∧ (parse_response t).summary_ko ≠ "")
    (hA : ∀ a ∈ (run_once o batch journals articles).articles,
      truthy_str a.doi = true → abstract_missing a = true →
      oa_usable o.openalex a = false)
    (hB : ∀ a ∈ (run_once o batch journals articles).articles,
      truthy_str a.doi = true → abstract_missing a = true →
      ss_usable o.semantic_scholar a = false)
    (hC : ∀ a ∈ recheck_candidates (run_once o batch journals articles).articles,
      (check_priority (a.title.getD "") (a.abstract.getD "")).2 = []) :
    (run_once o batch (run_once o batch journals articles).journals
        (run_once o batch journals articles).articles).new_count = 0 ∧
      (run_once o batch (run_once o batch journals articles).journals
        (run_once o batch journals articles).articles).translate_calls = 0 := by
  by_cases hb : batch.isEmpty
  case pos =>
    rw [run_once_empty_eq o batch _ _ hb]
    exact ⟨rfl, rfl⟩
  case neg =>
  have hb' : batch.isEmpty = false := by simpa using hb
  refine second_run_noop o batch _ _ ?_ ?_ hA hB hC
  · intro a ha
    have h1 := persist_fold_hash_mem (classify_articles batch)
      (journals, articles, 0) a ha
    have hmap : ((run_once o batch journals articles).articles).map (·.hash)
        = ((persist_articles (classify_articles batch) journals
            articles).2.1).map (·.hash) := by
      rw [run_once_articles_eq o batch journals articles hb',
        translate_priority_articles_fst, translate_fold_map_hash,
        recheck_priorities_fst, recheck_fold_map_hash]
      exact enrich_stage_map_hash o _ _
    rw [hmap]
    exact h1
  · rw [run_once_articles_eq o batch journals articles hb']
    apply translate_gate_empties
    intro b hbmem
    exact row_translation_filled_of_selected o.lm ["high"] b hwf
      (List.mem_filter.mp hbmem).2

/-- C3 counterexample: a one-article feed batch against a language model
whose responses omit the `[핵심 요약]` section.  The first run stores and
translates the article (one call) but writes an *empty* summary field;
the second run on the unchanged batch and store inserts zero net new rows
yet — because the gate re-selects rows with an empty translated field —
issues another translation call instead of zero. -/
theorem C3_counterexample :
    (run_once oracles_no_summary witness_batch [] []).translate_calls = 1 ∧
      (run_once oracles_no_summary witness_batch
        (run_once oracles_no_summary witness_batch [] []).journals
        (run_once oracles_no_summary witness_batch [] []).articles).new_count
        = 0 ∧
      (run_once oracles_no_summary witness_batch
        (run_once oracles_no_summary witness_batch [] []).journals
        (run_once oracles_no_summary witness_batch [] []).articles
        ).translate_calls = 1 := by
  decide

/-- Witness for `C3_second_run_is_noop`: a one-article feed batch run
against a well-formed language model and empty bibliographic providers,
starting from an empty store. -/
theorem C3_second_run_is_noop_witness :
    (run_once oracles_complete witness_batch
        (run_once oracles_complete witness_batch [] []).journals
        (run_once oracles_complete witness_batch [] []).articles).new_count = 0 ∧
      (run_once oracles_complete witness_batch
        (run_once oracles_complete witness_batch [] []).journals
        (run_once oracles_complete witness_batch [] []).articles
        ).translate_calls = 0 :=
  C3_second_run_is_noop oracles_complete witness_batch [] []
    (by intro t ab tx h; cases h; exact ⟨by decide, by decide⟩)
    (fun _ _ _ _ => rfl)
    (fun _ _ _ _ => rfl)
    (by
      intro a ha
      have hempty : recheck_candidates
          (run_once oracles_complete witness_batch [] []).articles = [] := by
        decide
      rw [hempty] at ha
      cases ha)
